import Mathlib

/-!
Verification development for the scalpingtrainer core: a shallow embedding of
the technical-indicator library (`ai_trading_strategies.py`), the strategy
signal engine, the position ledger (`main.py` / `multi_symbol_service.py` /
`position_service.py`) and the strategy-runner guards (`ai_trading_engine.py`),
with theorems checking the specification's claims against this embedding.

Numbers are embedded as rationals (`ℚ`); Python division is embedded as Lean
field division (total, with `x / 0 = 0`), and a parallel "checked" evaluation
(`divE`, `mapE`, `smaE`, ...) returns `none` exactly where the Python code
would raise `ZeroDivisionError`, so that division-by-zero claims are statable.
`np.std` (used only by Bollinger bands) computes a square root, which has no
exact rational counterpart; it is threaded through as an abstract parameter
`stdFn`, and every theorem involving it quantifies over that parameter.
-/

set_option maxHeartbeats 1000000

/-- Trade / position side, embedding the Python strings `'BUY'` / `'SELL'`. -/
inductive Side where
  | BUY
  | SELL
  deriving DecidableEq, Repr

/-- A position row (`models.Position`), restricted to the fields the ledger
logic reads and writes.  `side = none` embeds Python `None`. -/
structure Position where
  side : Option Side
  qty : ℚ
  entryPrice : ℚ
  latestPrice : ℚ
  unrealizedPnl : ℚ
  deriving DecidableEq, Repr

/-- `PositionService.create_or_update_position` from `position_service.py`,
as a pure state transformer on the (optional) position row of one symbol.
Python truthiness of the `latest_price` float argument is `≠ 0`. -/
def createOrUpdatePosition (pos : Option Position) (side : Side)
    (qty entryPrice latestPrice : ℚ) : Position :=
  let base : Position :=
    match pos with
    | none =>
        { side := some side, qty := qty, entryPrice := entryPrice,
          latestPrice := if latestPrice ≠ 0 then latestPrice else entryPrice,
          unrealizedPnl := 0 }
    | some p =>
        { side := some side, qty := qty, entryPrice := entryPrice,
          latestPrice := if latestPrice ≠ 0 then latestPrice else p.latestPrice,
          unrealizedPnl := p.unrealizedPnl }
  if latestPrice ≠ 0 ∧ 0 < qty then
    { base with
      unrealizedPnl :=
        if side = Side.BUY then (latestPrice - entryPrice) * qty
        else (entryPrice - latestPrice) * qty }
  else base

/-- `PositionService.close_position` from `position_service.py`: full close
when `qty` is `none` or at least the held quantity, partial close otherwise.
Returns the unchanged state when there is no (positive-quantity) position. -/
def closePosition (pos : Option Position) (qty : Option ℚ) : Option Position :=
  match pos with
  | none => none
  | some p =>
      if p.qty ≤ 0 then some p
      else
        match qty with
        | none =>
            some { p with qty := 0, side := none, entryPrice := 0, unrealizedPnl := 0 }
        | some q =>
            if p.qty ≤ q then
              some { p with qty := 0, side := none, entryPrice := 0, unrealizedPnl := 0 }
            else
              some { p with qty := p.qty - q }

/-- `update_position_on_trade` from `main.py` (the position-ledger trade
application): returns the new position state together with the realized PnL.
The `if new_qty > 0` guard on the accumulate branch is from `main.py`. -/
def updatePositionOnTrade (pos : Option Position) (side : Side)
    (price qty : ℚ) : Option Position × ℚ :=
  match pos with
  | none => (some (createOrUpdatePosition none side qty price price), 0)
  | some p =>
      match p.side with
      | none => (some (createOrUpdatePosition pos side qty price price), 0)
      | some ps =>
          if p.qty = 0 then
            (some (createOrUpdatePosition pos side qty price price), 0)
          else if side = ps then
            let newQty := p.qty + qty
            if 0 < newQty then
              let newEntry := (p.entryPrice * p.qty + price * qty) / newQty
              (some (createOrUpdatePosition pos side newQty newEntry price), 0)
            else (pos, 0)
          else if qty < p.qty then
            let realized :=
              if ps = Side.BUY then (price - p.entryPrice) * qty
              else (p.entryPrice - price) * qty
            (some (createOrUpdatePosition pos ps (p.qty - qty) p.entryPrice price), realized)
          else if qty = p.qty then
            let realized :=
              if ps = Side.BUY then (price - p.entryPrice) * qty
              else (p.entryPrice - price) * qty
            (closePosition pos (some qty), realized)
          else
            let closeQty := p.qty
            let realized :=
              if ps = Side.BUY then (price - p.entryPrice) * closeQty
              else (p.entryPrice - price) * closeQty
            (some (createOrUpdatePosition pos side (qty - closeQty) price price), realized)

/-- `MultiSymbolService._update_position_on_trade` from
`multi_symbol_service.py`: identical to `updatePositionOnTrade` except that the
accumulate branch divides by `new_qty` unconditionally (no `new_qty > 0`
guard). -/
def musUpdatePositionOnTrade (pos : Option Position) (side : Side)
    (price qty : ℚ) : Option Position × ℚ :=
  match pos with
  | none => (some (createOrUpdatePosition none side qty price price), 0)
  | some p =>
      match p.side with
      | none => (some (createOrUpdatePosition pos side qty price price), 0)
      | some ps =>
          if p.qty = 0 then
            (some (createOrUpdatePosition pos side qty price price), 0)
          else if side = ps then
            let newQty := p.qty + qty
            let newEntry := (p.entryPrice * p.qty + price * qty) / newQty
            (some (createOrUpdatePosition pos side newQty newEntry price), 0)
          else if qty < p.qty then
            let realized :=
              if ps = Side.BUY then (price - p.entryPrice) * qty
              else (p.entryPrice - price) * qty
            (some (createOrUpdatePosition pos ps (p.qty - qty) p.entryPrice price), realized)
          else if qty = p.qty then
            let realized :=
              if ps = Side.BUY then (price - p.entryPrice) * qty
              else (p.entryPrice - price) * qty
            (closePosition pos (some qty), realized)
          else
            let closeQty := p.qty
            let realized :=
              if ps = Side.BUY then (price - p.entryPrice) * closeQty
              else (p.entryPrice - price) * closeQty
            (some (createOrUpdatePosition pos side (qty - closeQty) price price), realized)

/-! ## Indicator library (`TechnicalIndicators` in `ai_trading_strategies.py`)

Each Python loop `for i in range(len(data))` appending one value per index is
embedded as a `map` over `List.range`; the Python slice `data[i-period+1:i+1]`
is the `window` below. -/

/-- Python slice `data[i-period+1 : i+1]` (for `i ≥ period-1`). -/
def window (data : List ℚ) (i period : ℕ) : List ℚ :=
  (data.drop (i + 1 - period)).take period

/-- Python `l[-1]` on a float list (the lists indexed this way are nonempty at
every use site, so the default is never consulted there). -/
def lastD (l : List ℚ) : ℚ := l.getD (l.length - 1) 0

/-- Python `l[-2]`. -/
def last2 (l : List ℚ) : ℚ := l.getD (l.length - 2) 0

/-- Python `max` of a list (use sites pass nonempty windows). -/
def listMax : List ℚ → ℚ
  | [] => 0
  | x :: xs => xs.foldl max x

/-- Python `min` of a list (use sites pass nonempty windows). -/
def listMin : List ℚ → ℚ
  | [] => 0
  | x :: xs => xs.foldl min x

/-- `TechnicalIndicators.sma`. -/
def sma (data : List ℚ) (period : ℕ) : List ℚ :=
  if data.length < period then List.replicate data.length 0
  else
    (List.range data.length).map (fun i =>
      if i < period - 1 then 0
      else (window data i period).sum / (period : ℚ))

/-- The in-place recurrence loop of `TechnicalIndicators.ema`:
`result[i] = data[i]*m + result[i-1]*(1-m)`, threading the previous value. -/
def emaGo (m : ℚ) (prev : ℚ) : List ℚ → List ℚ
  | [] => []
  | x :: xs =>
      let v := x * m + prev * (1 - m)
      v :: emaGo m v xs

/-- `TechnicalIndicators.ema`: zeros before `period-1`, seed SMA at
`period-1`, then the exponential recurrence. -/
def ema (data : List ℚ) (period : ℕ) : List ℚ :=
  if data.length < period then List.replicate data.length 0
  else
    let m : ℚ := 2 / ((period : ℚ) + 1)
    let seed : ℚ := (data.take period).sum / (period : ℚ)
    List.replicate (period - 1) 0 ++ [seed] ++ emaGo m seed (data.drop period)

/-- The `deltas` list of `TechnicalIndicators.rsi`:
`data[i] - data[i-1]` for `i = 1 .. len-1`. -/
def rsiDeltas (data : List ℚ) : List ℚ :=
  List.zipWith (fun a b => a - b) (data.drop 1) data

/-- The `gains` list of `TechnicalIndicators.rsi`. -/
def rsiGains (data : List ℚ) : List ℚ :=
  (rsiDeltas data).map (fun d => if 0 < d then d else 0)

/-- The `losses` list of `TechnicalIndicators.rsi`. -/
def rsiLosses (data : List ℚ) : List ℚ :=
  (rsiDeltas data).map (fun d => if d < 0 then -d else 0)

/-- The body of the `for i in range(period, len(data))` loop of
`TechnicalIndicators.rsi`, with the source's bounds checks
`i < len(avg_losses)` / `i < len(avg_gains)` kept exactly. -/
def rsiTail (avgGains avgLosses : List ℚ) (i : ℕ) : ℚ :=
  if i < avgLosses.length ∧ avgLosses.getD i 0 = 0 then 100
  else if i < avgLosses.length ∧ i < avgGains.length then
    100 - 100 / (1 + avgGains.getD i 0 / avgLosses.getD i 0)
  else 50

/-- `TechnicalIndicators.rsi`. -/
def rsi (data : List ℚ) (period : ℕ) : List ℚ :=
  if data.length < period + 1 then List.replicate data.length 50
  else
    List.replicate period 50 ++
      (List.range' period (data.length - period)).map
        (rsiTail (sma (rsiGains data) period) (sma (rsiLosses data) period))

/-- `TechnicalIndicators.macd`: returns (macd line, signal line, histogram). -/
def macd (data : List ℚ) (fast slow sig : ℕ) : List ℚ × List ℚ × List ℚ :=
  let emaFast := ema data fast
  let emaSlow := ema data slow
  let macdLine := (List.range data.length).map (fun i =>
    emaFast.getD i 0 - emaSlow.getD i 0)
  let signalLine := ema macdLine sig
  let histogram := (List.range data.length).map (fun i =>
    macdLine.getD i 0 - signalLine.getD i 0)
  (macdLine, signalLine, histogram)

/-- `TechnicalIndicators.bollinger_bands`, with `np.std` over the window
abstracted as `stdFn` (it involves a square root, which is not rational).
Returns (upper band, middle = sma, lower band). -/
def bollinger_bands (stdFn : List ℚ → ℚ) (data : List ℚ) (period : ℕ)
    (stdDev : ℚ) : List ℚ × List ℚ × List ℚ :=
  let s := sma data period
  let upper := (List.range data.length).map (fun i =>
    if i < period - 1 then data.getD i 0
    else s.getD i 0 + stdFn (window data i period) * stdDev)
  let lower := (List.range data.length).map (fun i =>
    if i < period - 1 then data.getD i 0
    else s.getD i 0 - stdFn (window data i period) * stdDev)
  (upper, s, lower)

/-- `TechnicalIndicators.stochastic`: returns (%K, %D). -/
def stochastic (high low close : List ℚ) (kPeriod dPeriod : ℕ) :
    List ℚ × List ℚ :=
  let kPercent := (List.range close.length).map (fun i =>
    if i < kPeriod - 1 then 50
    else
      let hh := listMax (window high i kPeriod)
      let ll := listMin (window low i kPeriod)
      if hh ≠ ll then (close.getD i 0 - ll) / (hh - ll) * 100 else 50)
  (kPercent, sma kPercent dPeriod)

/-- The true-range list shared by `atr` and `adx`:
`max(high[i]-low[i], |high[i]-close[i-1]|, |low[i]-close[i-1]|)` for
`i = 1 .. len-1`. -/
def trList (high low close : List ℚ) : List ℚ :=
  (List.range (high.length - 1)).map (fun i =>
    max (high.getD (i + 1) 0 - low.getD (i + 1) 0)
      (max |high.getD (i + 1) 0 - close.getD i 0|
        |low.getD (i + 1) 0 - close.getD i 0|))

/-- `TechnicalIndicators.atr`: one leading zero to align length, then the SMA
of the true ranges. -/
def atr (high low close : List ℚ) (period : ℕ) : List ℚ :=
  if high.length < 2 then List.replicate high.length 0
  else
    let trs := trList high low close
    List.replicate (high.length - trs.length) 0 ++ sma trs period

/-- `TechnicalIndicators.williams_r`. -/
def williams_r (high low close : List ℚ) (period : ℕ) : List ℚ :=
  (List.range close.length).map (fun i =>
    if i < period - 1 then -50
    else
      let hh := listMax (window high i period)
      let ll := listMin (window low i period)
      if hh ≠ ll then (hh - close.getD i 0) / (hh - ll) * (-100) else -50)

/-- Typical price `(high[j] + low[j] + close[j]) / 3` used by `cci`. -/
def typicalPrice (high low close : List ℚ) (j : ℕ) : ℚ :=
  (high.getD j 0 + low.getD j 0 + close.getD j 0) / 3

/-- `sma_tp` inside `TechnicalIndicators.cci` at index `i`. -/
def cciSmaTp (high low close : List ℚ) (period i : ℕ) : ℚ :=
  ((List.range' (i + 1 - period) period).map (typicalPrice high low close)).sum
    / (period : ℚ)

/-- `mean_deviation` inside `TechnicalIndicators.cci` at index `i`. -/
def cciMeanDev (high low close : List ℚ) (period i : ℕ) : ℚ :=
  ((List.range' (i + 1 - period) period).map (fun j =>
    |typicalPrice high low close j - cciSmaTp high low close period i|)).sum
    / (period : ℚ)

/-- `TechnicalIndicators.cci` (`0.015 = 3/200`). -/
def cci (high low close : List ℚ) (period : ℕ) : List ℚ :=
  (List.range close.length).map (fun i =>
    if i < period - 1 then 0
    else if cciMeanDev high low close period i = 0 then 0
    else
      (typicalPrice high low close i - cciSmaTp high low close period i) /
        (3 / 200 * cciMeanDev high low close period i))

/-- `dm_plus` list inside `TechnicalIndicators.adx`. -/
def dmPlusList (high low : List ℚ) : List ℚ :=
  (List.range (high.length - 1)).map (fun i =>
    let hd := high.getD (i + 1) 0 - high.getD i 0
    let ld := low.getD i 0 - low.getD (i + 1) 0
    if ld < hd ∧ 0 < hd then hd else 0)

/-- `dm_minus` list inside `TechnicalIndicators.adx`. -/
def dmMinusList (high low : List ℚ) : List ℚ :=
  (List.range (high.length - 1)).map (fun i =>
    let hd := high.getD (i + 1) 0 - high.getD i 0
    let ld := low.getD i 0 - low.getD (i + 1) 0
    if hd < ld ∧ 0 < ld then ld else 0)

/-- One step of the `di_plus` / `di_minus` loop of `adx`: the pair
`(di_plus[i], di_minus[i])`, with the `tr_sma == 0` guard. -/
def diPairVal (period : ℕ) (dmP dmM trs : List ℚ) (i : ℕ) : ℚ × ℚ :=
  if i < period - 1 then (0, 0)
  else
    let dps := (window dmP i period).sum / (period : ℚ)
    let dms := (window dmM i period).sum / (period : ℚ)
    let trS := (window trs i period).sum / (period : ℚ)
    if trS = 0 then (0, 0)
    else (dps / trS * 100, dms / trS * 100)

/-- `dx` at index `i` inside `adx`, with the `(di_plus + di_minus) > 0`
guard. -/
def dxFun (diP diM : List ℚ) (i : ℕ) : ℚ :=
  if 0 < diP.getD i 0 + diM.getD i 0 then
    |diP.getD i 0 - diM.getD i 0| / (diP.getD i 0 + diM.getD i 0) * 100
  else 0

/-- The Wilder-smoothing loop of `adx`: value appended at loop index `i`
(`0` before `period-1`, the raw `dx` at `period-1`, smoothed afterwards,
where `adx_values[-1]` is the previously appended value). -/
def adxVal (period : ℕ) (dx : ℕ → ℚ) : ℕ → ℚ
  | 0 => if 0 < period - 1 then 0 else dx 0
  | i + 1 =>
      if i + 1 < period - 1 then 0
      else if i + 1 = period - 1 then dx (i + 1)
      else (adxVal period dx i * ((period : ℚ) - 1) + dx (i + 1)) / (period : ℚ)

/-- `TechnicalIndicators.adx`. -/
def adx (high low close : List ℚ) (period : ℕ) : List ℚ :=
  if high.length < 2 then List.replicate high.length 0
  else
    let dmP := dmPlusList high low
    let dmM := dmMinusList high low
    let trs := trList high low close
    let diP := (List.range dmP.length).map (fun i => (diPairVal period dmP dmM trs i).1)
    let diM := (List.range dmP.length).map (fun i => (diPairVal period dmP dmM trs i).2)
    List.replicate (high.length - dmP.length) 0 ++
      (List.range dmP.length).map (adxVal period (dxFun diP diM))

/-! ## Strategy signal engine (`AITradingStrategy` and its three variants) -/

/-- A trading signal, embedding the Python strings `"BUY"`/`"SELL"`/`"HOLD"`. -/
inductive Sig where
  | BUY
  | SELL
  | HOLD
  deriving DecidableEq, Repr

/-- The three risk variants created by `create_strategy`. -/
inductive RiskKind where
  | high
  | medium
  | low
  deriving DecidableEq, Repr

/-- The `reason` string of an analysis result, abstracted to its salient
content: either the literal `"Insufficient data"` or the formatted
per-variant message carrying the buy/sell signal counts. -/
inductive Reason where
  | insufficientData
  | aggregated (kind : RiskKind) (buyCount sellCount : ℕ)
  deriving DecidableEq, Repr

/-- The dictionary returned by `analyze_market` / `_analyze_signals`,
restricted to the `signal`, `confidence` and `reason` keys (the
`technical_indicators` snapshot is audit-only and not modelled). -/
structure SignalResult where
  signal : Sig
  confidence : ℚ
  reason : Reason
  deriving DecidableEq, Repr

/-- A market candle, restricted to the fields `analyze_market` reads
(`float(c['close'])`, `float(c['high'])`, `float(c['low'])`,
`float(c.get('volume', 0))`). -/
structure Candle where
  high : ℚ
  low : ℚ
  close : ℚ
  volume : ℚ
  deriving DecidableEq, Repr

/-- `HighRiskStrategy._analyze_signals`, sub-rules 1–7 (no division, cannot
raise): the parallel Python lists `signals` / `confidence_scores` are
embedded as one list of (signal, confidence-weight) pairs, appended in the
source's order. -/
def highRules1to7 (price : ℚ) (sma20 rsiL macdL macdS bbU bbL stochK stochD
    willR cciL adxL : List ℚ) : List (Sig × ℚ) :=
  (if lastD rsiL < 30 then [(Sig.BUY, 0.8)]
   else if 70 < lastD rsiL then [(Sig.SELL, 0.8)] else []) ++
  (if 2 ≤ macdL.length ∧ 2 ≤ macdS.length then
     (if lastD macdS < lastD macdL ∧ last2 macdL ≤ last2 macdS then [(Sig.BUY, 0.7)]
      else if lastD macdL < lastD macdS ∧ last2 macdS ≤ last2 macdL then [(Sig.SELL, 0.7)]
      else [])
   else []) ++
  (if price ≤ lastD bbL then [(Sig.BUY, 0.6)]
   else if lastD bbU ≤ price then [(Sig.SELL, 0.6)] else []) ++
  (if lastD stochK < 20 ∧ lastD stochD < 20 then [(Sig.BUY, 0.5)]
   else if 80 < lastD stochK ∧ 80 < lastD stochD then [(Sig.SELL, 0.5)] else []) ++
  (if lastD willR < -80 then [(Sig.BUY, 0.6)]
   else if -20 < lastD willR then [(Sig.SELL, 0.6)] else []) ++
  (if lastD cciL < -100 then [(Sig.BUY, 0.5)]
   else if 100 < lastD cciL then [(Sig.SELL, 0.5)] else []) ++
  (if 25 < lastD adxL then
     (if lastD sma20 < price then [(Sig.BUY, 0.7)]
      else if price < lastD sma20 then [(Sig.SELL, 0.7)] else [])
   else [])

/-- `HighRiskStrategy._analyze_signals`, sub-rule 8: the value produced when
its two pure-float divisions (`atr[-1]/current_price`, reached when
`atr[-1] > 0`, and `(current-prev)/prev`, reached when additionally
`atr_ratio > 0.01`) do not raise `ZeroDivisionError`; the raising executions
are captured by the checked `highRulesAtrE`. -/
def highRulesAtr (price prev : ℚ) (atrL : List ℚ) : List (Sig × ℚ) :=
  if 0 < atrL.length ∧ 0 < lastD atrL then
    (if 0.01 < lastD atrL / price then
       (if 0.001 < (price - prev) / prev then [(Sig.BUY, 0.3)]
        else if (price - prev) / prev < -0.001 then [(Sig.SELL, 0.3)] else [])
     else [])
  else []

/-- `HighRiskStrategy._analyze_signals`, all eight sub-rules (non-raising
executions). -/
def highRules (price prev : ℚ) (sma20 rsiL macdL macdS bbU bbL stochK stochD
    atrL willR cciL adxL : List ℚ) : List (Sig × ℚ) :=
  highRules1to7 price sma20 rsiL macdL macdS bbU bbL stochK stochD willR cciL
    adxL ++ highRulesAtr price prev atrL

/-- `bb_position = (price - bb_lower[-1]) / (bb_upper[-1] - bb_lower[-1])` is
an `np.float64` division (the bands contain `np.std`), so a zero denominator
does not raise: it yields NaN when the numerator is 0 (every comparison
false) and ±inf otherwise.  `fdivLt num den c` is `num/den < c` under these
semantics: for `den = 0`, true only for -inf (`num < 0`). -/
def fdivLt (num den c : ℚ) : Prop :=
  if den = 0 then num < 0 else num / den < c

/-- `num/den > c` under `np.float64` semantics (see `fdivLt`): for `den = 0`,
true only for +inf (`num > 0`). -/
def fdivGt (num den c : ℚ) : Prop :=
  if den = 0 then 0 < num else c < num / den

instance fdivLtDec (num den c : ℚ) : Decidable (fdivLt num den c) := by
  unfold fdivLt
  infer_instance

instance fdivGtDec (num den c : ℚ) : Decidable (fdivGt num den c) := by
  unfold fdivGt
  infer_instance

/-- `MediumRiskStrategy._analyze_signals`, sub-rule evaluation.  The only
division in this variant is the `np.float64` `bb_position` (rules 4 and 7),
embedded with its NaN/±inf comparison semantics via `fdivLt`/`fdivGt`; the
medium variant therefore never raises. -/
def mediumRules (price : ℚ) (sma20 sma50 ema12 ema26 rsiL macdL macdH bbU bbL
    willR cciL adxL : List ℚ) : List (Sig × ℚ) :=
  (if 2 ≤ sma20.length ∧ 2 ≤ sma50.length then
     (if lastD sma50 < lastD sma20 ∧ last2 sma20 ≤ last2 sma50 then [(Sig.BUY, 0.8)]
      else if lastD sma20 < lastD sma50 ∧ last2 sma50 ≤ last2 sma20 then [(Sig.SELL, 0.8)]
      else [])
   else []) ++
  (if 2 ≤ ema12.length ∧ 2 ≤ ema26.length then
     (if lastD ema26 < lastD ema12 ∧ last2 ema12 ≤ last2 ema26 then [(Sig.BUY, 0.7)]
      else if lastD ema12 < lastD ema26 ∧ last2 ema26 ≤ last2 ema12 then [(Sig.SELL, 0.7)]
      else [])
   else []) ++
  (if 40 ≤ lastD rsiL ∧ lastD rsiL ≤ 60 then
     (if lastD sma20 < price then [(Sig.BUY, 0.6)]
      else if price < lastD sma20 then [(Sig.SELL, 0.6)] else [])
   else []) ++
  (if fdivLt (price - lastD bbL) (lastD bbU - lastD bbL) 0.2 ∧ lastD rsiL < 50
     then [(Sig.BUY, 0.7)]
   else if fdivGt (price - lastD bbL) (lastD bbU - lastD bbL) 0.8 ∧
       50 < lastD rsiL then [(Sig.SELL, 0.7)]
   else []) ++
  (if 2 ≤ macdH.length then
     (if 0 < lastD macdH ∧ last2 macdH ≤ 0 then [(Sig.BUY, 0.6)]
      else if lastD macdH < 0 ∧ 0 ≤ last2 macdH then [(Sig.SELL, 0.6)] else [])
   else []) ++
  (if lastD willR < -70 ∧ lastD rsiL < 40 then [(Sig.BUY, 0.8)]
   else if -30 < lastD willR ∧ 60 < lastD rsiL then [(Sig.SELL, 0.8)] else []) ++
  (if lastD cciL < -100 ∧
       fdivLt (price - lastD bbL) (lastD bbU - lastD bbL) 0.3 then
     [(Sig.BUY, 0.7)]
   else if 100 < lastD cciL ∧
       fdivGt (price - lastD bbL) (lastD bbU - lastD bbL) 0.7 then
     [(Sig.SELL, 0.7)]
   else []) ++
  (if 20 < lastD adxL then
     (if lastD ema12 < price ∧ lastD ema26 < lastD ema12 then [(Sig.BUY, 0.6)]
      else if price < lastD ema12 ∧ lastD ema12 < lastD ema26 then [(Sig.SELL, 0.6)]
      else [])
   else [])

/-- Python `sum(l[-5:]) / 5 - sum(l[-10:-5]) / 5` if `len(l) >= 10` else `0`
(trend slope used by the LOW variant). -/
def trend5 (l : List ℚ) : ℚ :=
  if 10 ≤ l.length then
    (l.drop (l.length - 5)).sum / 5 - ((l.drop (l.length - 10)).take 5).sum / 5
  else 0

/-- Python `sum(1 for i in range(-5, 0) if macd_line[i] > macd_signal[i])`. -/
def macdAboveCount (macdL macdS : List ℚ) : ℕ :=
  ((List.range 5).filter (fun k =>
    macdS.getD (macdS.length - 5 + k) 0 < macdL.getD (macdL.length - 5 + k) 0)).length

/-- Python `volume_ratio = current_volume / avg_volume if avg_volume > 0 else 1`
over the last 10 volumes. -/
def volumeRat (vols : List ℚ) : ℚ :=
  let avgVolume := (vols.drop (vols.length - 10)).sum / 10
  if 0 < avgVolume then lastD vols / avgVolume else 1

/-- `LowRiskStrategy._analyze_signals`, sub-rules 1–4 (no raising division:
`bb_position` (rule 4) is `np.float64`, embedded with its NaN/±inf comparison
semantics via `fdivLt`/`fdivGt`, and `volume_ratio` is guarded by
`avg_volume > 0` in the source). -/
def lowRules1to4 (price : ℚ) (sma20 sma50 rsiL macdL macdS bbU bbL
    vols : List ℚ) : List (Sig × ℚ) :=
  (if 5 ≤ sma20.length ∧ 5 ≤ sma50.length then
     (if 0 < trend5 sma20 ∧ 0 < trend5 sma50 ∧ lastD sma20 < price ∧
         lastD sma50 < lastD sma20 then [(Sig.BUY, 0.9)]
      else if trend5 sma20 < 0 ∧ trend5 sma50 < 0 ∧ price < lastD sma20 ∧
          lastD sma20 < lastD sma50 then [(Sig.SELL, 0.9)]
      else [])
   else []) ++
  (if 10 ≤ rsiL.length then
     (if 30 ≤ lastD rsiL ∧ lastD rsiL ≤ 50 ∧ 0 < trend5 rsiL then [(Sig.BUY, 0.7)]
      else if 50 ≤ lastD rsiL ∧ lastD rsiL ≤ 70 ∧ trend5 rsiL < 0 then [(Sig.SELL, 0.7)]
      else [])
   else []) ++
  (if 5 ≤ macdL.length ∧ 5 ≤ macdS.length then
     (if 4 ≤ macdAboveCount macdL macdS ∧ lastD macdS < lastD macdL then [(Sig.BUY, 0.8)]
      else if macdAboveCount macdL macdS ≤ 1 ∧ lastD macdL < lastD macdS then
        [(Sig.SELL, 0.8)]
      else [])
   else []) ++
  (if 10 ≤ vols.length then
     (if fdivLt (price - lastD bbL) (lastD bbU - lastD bbL) 0.3 ∧
          1.2 < volumeRat vols then [(Sig.BUY, 0.6)]
      else if fdivGt (price - lastD bbL) (lastD bbU - lastD bbL) 0.7 ∧
          1.2 < volumeRat vols then [(Sig.SELL, 0.6)]
      else [])
   else [])

/-- `LowRiskStrategy._analyze_signals`, sub-rule 5: the value when the
pure-float `atr[-1]/current_price` (reached when `atr[-1] > 0`) does not
raise; the raising executions are captured by `lowRulesAtrE`. -/
def lowRulesAtr (price : ℚ) (sma50 atrL : List ℚ) : List (Sig × ℚ) :=
  if 0 < atrL.length ∧ 0 < lastD atrL then
    (if lastD atrL / price < 0.005 then
       (if lastD sma50 < price then [(Sig.BUY, 0.6)]
        else if price < lastD sma50 then [(Sig.SELL, 0.6)] else [])
     else [])
  else []

/-- `LowRiskStrategy._analyze_signals`, sub-rules 6–7 (no division). -/
def lowRules6to7 (price : ℚ) (sma50 macdL macdS willR cciL
    adxL : List ℚ) : List (Sig × ℚ) :=
  (if 30 < lastD adxL then
     (if lastD willR < -50 ∧ lastD sma50 < price then [(Sig.BUY, 0.8)]
      else if -50 < lastD willR ∧ price < lastD sma50 then [(Sig.SELL, 0.8)] else [])
   else []) ++
  (if lastD cciL < -50 ∧ lastD macdS < lastD macdL then [(Sig.BUY, 0.7)]
   else if 50 < lastD cciL ∧ lastD macdL < lastD macdS then [(Sig.SELL, 0.7)] else [])

/-- `LowRiskStrategy._analyze_signals`, sub-rule 8: the value when the
pure-float `atr[-1]/current_price` (reached when `volume_ratio > 1.5` and
`len(atr) > 0`) does not raise; the raising executions are captured by
`lowRulesVolAtrE`. -/
def lowRulesVolAtr (price : ℚ) (sma20 vols atrL : List ℚ) : List (Sig × ℚ) :=
  if 10 ≤ vols.length then
    (if 1.5 < volumeRat vols ∧ 0 < atrL.length then
       (if 0.01 < lastD atrL / price then
          (if lastD sma20 < price then [(Sig.BUY, 0.5)]
           else if price < lastD sma20 then [(Sig.SELL, 0.5)] else [])
        else [])
     else [])
  else []

/-- `LowRiskStrategy._analyze_signals`, all eight sub-rules (non-raising
executions). -/
def lowRules (price : ℚ) (sma20 sma50 rsiL macdL macdS bbU bbL vols atrL
    willR cciL adxL : List ℚ) : List (Sig × ℚ) :=
  lowRules1to4 price sma20 sma50 rsiL macdL macdS bbU bbL vols ++
  lowRulesAtr price sma50 atrL ++
  lowRules6to7 price sma50 macdL macdS willR cciL adxL ++
  lowRulesVolAtr price sma20 vols atrL

/-- `signals.count("BUY")`. -/
def buySignals (rs : List (Sig × ℚ)) : ℕ :=
  rs.countP (fun r => r.1 == Sig.BUY)

/-- `signals.count("SELL")`. -/
def sellSignals (rs : List (Sig × ℚ)) : ℕ :=
  rs.countP (fun r => r.1 == Sig.SELL)

/-- `sum(confidence_scores) / len(confidence_scores) if confidence_scores
else 0`. -/
def avgConfidence (rs : List (Sig × ℚ)) : ℚ :=
  if rs.length ≠ 0 then (rs.map Prod.snd).sum / (rs.length : ℚ) else 0

/-- The decision tail shared (up to the reason string) by all three
`_analyze_signals` variants: BUY when `buy_signals > sell_signals` and
`avg_confidence >= confidence_threshold`, symmetric SELL, otherwise HOLD. -/
def aggregate (kind : RiskKind) (threshold : ℚ) (rs : List (Sig × ℚ)) :
    SignalResult :=
  if sellSignals rs < buySignals rs ∧ threshold ≤ avgConfidence rs then
    ⟨Sig.BUY, avgConfidence rs, Reason.aggregated kind (buySignals rs) (sellSignals rs)⟩
  else if buySignals rs < sellSignals rs ∧ threshold ≤ avgConfidence rs then
    ⟨Sig.SELL, avgConfidence rs, Reason.aggregated kind (buySignals rs) (sellSignals rs)⟩
  else
    ⟨Sig.HOLD, avgConfidence rs, Reason.aggregated kind (buySignals rs) (sellSignals rs)⟩

/-- The indicator pipeline of `AITradingStrategy.analyze_market` followed by
the variant's sub-rule evaluation: the fired sub-rules with their weights, on
executions where no float division raises (the checked `firedRulesE` below
returns `none` exactly on the raising executions and agrees here
otherwise). -/
def firedRules (kind : RiskKind) (stdFn : List ℚ → ℚ) (candles : List Candle) :
    List (Sig × ℚ) :=
  let closes := candles.map Candle.close
  let highs := candles.map Candle.high
  let lows := candles.map Candle.low
  let vols := candles.map Candle.volume
  let sma20 := sma closes 20
  let sma50 := sma closes 50
  let ema12 := ema closes 12
  let ema26 := ema closes 26
  let rsiL := rsi closes 14
  let m := macd closes 12 26 9
  let bb := bollinger_bands stdFn closes 20 2
  let st := stochastic highs lows closes 14 3
  let atrL := atr highs lows closes 14
  let willR := williams_r highs lows closes 14
  let cciL := cci highs lows closes 20
  let adxL := adx highs lows closes 14
  let current := lastD closes
  let prev := if 1 < closes.length then last2 closes else current
  match kind with
  | RiskKind.high =>
      highRules current prev sma20 rsiL m.1 m.2.1 bb.1 bb.2.2 st.1 st.2 atrL
        willR cciL adxL
  | RiskKind.medium =>
      mediumRules current sma20 sma50 ema12 ema26 rsiL m.1 m.2.2 bb.1 bb.2.2
        willR cciL adxL
  | RiskKind.low =>
      lowRules current sma20 sma50 rsiL m.1 m.2.1 bb.1 bb.2.2 vols atrL willR
        cciL adxL

/-- `AITradingStrategy.analyze_market`: the `len(candles) < 50` hard
precondition, then indicators, sub-rules and the aggregation decision. -/
def analyzeMarket (kind : RiskKind) (stdFn : List ℚ → ℚ) (threshold : ℚ)
    (candles : List Candle) : SignalResult :=
  if candles.length < 50 then ⟨Sig.HOLD, 0, Reason.insufficientData⟩
  else aggregate kind threshold (firedRules kind stdFn candles)

/-! ## Strategy runner (`AITradingEngine`) -/

/-- The exit reason tag passed to `_close_position`. -/
inductive ExitReason where
  | stopLoss
  | takeProfit
  deriving DecidableEq, Repr

/-- The `pnl_pct` computed by `AITradingEngine.check_exit_conditions`
(`current_price` is the position's `latest_price`). -/
def pnlPct (p : Position) : ℚ :=
  if p.side = some Side.BUY then
    (p.latestPrice - p.entryPrice) / p.entryPrice * 100
  else
    (p.entryPrice - p.latestPrice) / p.entryPrice * 100

/-- The per-position body of `AITradingEngine.check_exit_conditions`: `none`
when the position is skipped or neither threshold is hit, otherwise the
forced-close reason. -/
def checkExitCondition (p : Position) (stopLossPct takeProfitPct : ℚ) :
    Option ExitReason :=
  if p.qty = 0 then none
  else if pnlPct p ≤ -stopLossPct then some ExitReason.stopLoss
  else if takeProfitPct ≤ pnlPct p then some ExitReason.takeProfit
  else none

/-- The per-strategy runtime state mutated by `_process_strategy` /
`_open_position` (`strategy_info['daily_trades']`,
`strategy_info['last_trade_date']`).  Calendar dates are abstracted as `ℤ`. -/
structure StratState where
  dailyTrades : ℕ
  lastTradeDate : Option ℤ
  deriving DecidableEq, Repr

/-- The date-rollover reset at the top of `AITradingEngine._process_strategy`:
zero the counter and stamp today's date exactly when the stored date differs
from today. -/
def rollDaily (st : StratState) (today : ℤ) : StratState :=
  if st.lastTradeDate ≠ some today then
    { dailyTrades := 0, lastTradeDate := some today }
  else st

/-- One tick of `AITradingEngine._process_strategy`, restricted to the daily
trade-cap logic: `rollDaily`, then skip (returning `false`: no candle fetch,
no analysis, no trade) when the counter has reached `max_daily_trades`;
otherwise entry processing runs (`true`) and the oracle `wouldTrade` says
whether it ends in `_open_position` incrementing the counter. -/
def processStrategyTick (st : StratState) (today : ℤ) (maxDaily : ℕ)
    (wouldTrade : Bool) : StratState × Bool :=
  if maxDaily ≤ (rollDaily st today).dailyTrades then (rollDaily st today, false)
  else if wouldTrade then
    ({ rollDaily st today with
       dailyTrades := (rollDaily st today).dailyTrades + 1 }, true)
  else (rollDaily st today, true)

/-- A run of ticks, each with its calendar date and trade oracle. -/
def runTicks (maxDaily : ℕ) (st : StratState) : List (ℤ × Bool) → StratState
  | [] => st
  | e :: es => runTicks maxDaily (processStrategyTick st e.1 maxDaily e.2).1 es

/-- `AITradingEngine._open_position` (simulation branch), as the resulting
position row and the PnL recorded on the trade/log rows: the position is
overwritten via `create_or_update_position` with the leveraged quantity
`position_size_usd / price * leverage`, and the recorded PnL is the literal
`0.0`. -/
def engineOpenPosition (pos : Option Position) (side : Side) (price : ℚ)
    (positionSizeUsd leverage : ℚ) : Position × ℚ :=
  let quantity := positionSizeUsd / price
  let leveragedQuantity := quantity * leverage
  (createOrUpdatePosition pos side leveragedQuantity price price, 0)

/-- `AITradingEngine._process_trading_signal` for a qualifying BUY/SELL
signal: open unless the tracked position already has the signal's side
(`none` = no action taken). -/
def processTradingSignal (pos : Option Position) (signalSide : Side)
    (price positionSizeUsd leverage : ℚ) : Option (Position × ℚ) :=
  match pos with
  | none => some (engineOpenPosition none signalSide price positionSizeUsd leverage)
  | some p =>
      if p.side ≠ some signalSide then
        some (engineOpenPosition pos signalSide price positionSizeUsd leverage)
      else none

/-! ## Checked evaluation

The definitions below re-evaluate the indicator functions with every
non-constant-denominator division routed through `divE`, which returns `none`
exactly when the denominator is zero — i.e. exactly where the Python code
would raise `ZeroDivisionError`.  `some` results agree with the total
embeddings above. -/

/-- Python float division: `none` on a zero denominator
(`ZeroDivisionError`). -/
def divE (a b : ℚ) : Option ℚ := if b = 0 then none else some (a / b)

/-- A Python `for`-loop appending `f i` per element, where `f` may raise:
propagates the first `none` (left to right). -/
def mapE {α β : Type} (f : α → Option β) : List α → Option (List β)
  | [] => some []
  | x :: xs => do
      let y ← f x
      let ys ← mapE f xs
      some (y :: ys)

/-- Checked `TechnicalIndicators.sma`. -/
def smaE (data : List ℚ) (period : ℕ) : Option (List ℚ) :=
  if data.length < period then some (List.replicate data.length 0)
  else
    mapE (fun i =>
      if i < period - 1 then some 0
      else divE (window data i period).sum (period : ℚ))
      (List.range data.length)

/-- Checked `rsiTail`. -/
def rsiTailE (avgGains avgLosses : List ℚ) (i : ℕ) : Option ℚ :=
  if i < avgLosses.length ∧ avgLosses.getD i 0 = 0 then some 100
  else if i < avgLosses.length ∧ i < avgGains.length then do
    let rs ← divE (avgGains.getD i 0) (avgLosses.getD i 0)
    let q ← divE 100 (1 + rs)
    some (100 - q)
  else some 50

/-- Checked `TechnicalIndicators.rsi`. -/
def rsiE (data : List ℚ) (period : ℕ) : Option (List ℚ) :=
  if data.length < period + 1 then some (List.replicate data.length 50)
  else do
    let avgGains ← smaE (rsiGains data) period
    let avgLosses ← smaE (rsiLosses data) period
    let tl ← mapE (rsiTailE avgGains avgLosses)
      (List.range' period (data.length - period))
    some (List.replicate period 50 ++ tl)

/-- Checked `TechnicalIndicators.stochastic`. -/
def stochasticE (high low close : List ℚ) (kPeriod dPeriod : ℕ) :
    Option (List ℚ × List ℚ) := do
  let kPercent ← mapE (fun i =>
    if i < kPeriod - 1 then some 50
    else
      let hh := listMax (window high i kPeriod)
      let ll := listMin (window low i kPeriod)
      if hh ≠ ll then do
        let r ← divE (close.getD i 0 - ll) (hh - ll)
        some (r * 100)
      else some 50) (List.range close.length)
  let d ← smaE kPercent dPeriod
  some (kPercent, d)

/-- Checked `TechnicalIndicators.williams_r`. -/
def williams_rE (high low close : List ℚ) (period : ℕ) : Option (List ℚ) :=
  mapE (fun i =>
    if i < period - 1 then some (-50)
    else
      let hh := listMax (window high i period)
      let ll := listMin (window low i period)
      if hh ≠ ll then do
        let r ← divE (hh - close.getD i 0) (hh - ll)
        some (r * (-100))
      else some (-50)) (List.range close.length)

/-- Checked `TechnicalIndicators.cci`. -/
def cciE (high low close : List ℚ) (period : ℕ) : Option (List ℚ) :=
  mapE (fun i =>
    if i < period - 1 then some 0
    else do
      let smaTp ← divE
        ((List.range' (i + 1 - period) period).map (typicalPrice high low close)).sum
        (period : ℚ)
      let meanDev ← divE
        ((List.range' (i + 1 - period) period).map (fun j =>
          |typicalPrice high low close j - smaTp|)).sum
        (period : ℚ)
      if meanDev = 0 then some 0
      else divE (typicalPrice high low close i - smaTp) (3 / 200 * meanDev))
    (List.range close.length)

/-- Checked `diPairVal`. -/
def diPairValE (period : ℕ) (dmP dmM trs : List ℚ) (i : ℕ) : Option (ℚ × ℚ) :=
  if i < period - 1 then some (0, 0)
  else do
    let dps ← divE (window dmP i period).sum (period : ℚ)
    let dms ← divE (window dmM i period).sum (period : ℚ)
    let trS ← divE (window trs i period).sum (period : ℚ)
    if trS = 0 then some (0, 0)
    else do
      let a ← divE dps trS
      let b ← divE dms trS
      some (a * 100, b * 100)

/-- Checked `dxFun`. -/
def dxFunE (diP diM : List ℚ) (i : ℕ) : Option ℚ :=
  if 0 < diP.getD i 0 + diM.getD i 0 then do
    let r ← divE |diP.getD i 0 - diM.getD i 0| (diP.getD i 0 + diM.getD i 0)
    some (r * 100)
  else some 0

/-- Checked `adxVal`. -/
def adxValE (period : ℕ) (dx : ℕ → ℚ) : ℕ → Option ℚ
  | 0 => if 0 < period - 1 then some 0 else some (dx 0)
  | i + 1 =>
      if i + 1 < period - 1 then some 0
      else if i + 1 = period - 1 then some (dx (i + 1))
      else do
        let prev ← adxValE period dx i
        divE (prev * ((period : ℚ) - 1) + dx (i + 1)) (period : ℚ)

/-- Checked `TechnicalIndicators.adx`. -/
def adxE (high low close : List ℚ) (period : ℕ) : Option (List ℚ) :=
  if high.length < 2 then some (List.replicate high.length 0)
  else
    let dmP := dmPlusList high low
    let dmM := dmMinusList high low
    let trs := trList high low close
    do
      let dis ← mapE (diPairValE period dmP dmM trs) (List.range dmP.length)
      let diP := dis.map Prod.fst
      let diM := dis.map Prod.snd
      let dxs ← mapE (dxFunE diP diM) (List.range dmP.length)
      let vals ← mapE (adxValE period (fun i => dxs.getD i 0))
        (List.range dmP.length)
      some (List.replicate (high.length - dmP.length) 0 ++ vals)

/-- Checked `HighRiskStrategy` sub-rule 8: `none` exactly when a reached
float division (`atr[-1]/current_price`, then `(current-prev)/prev`) has a
zero denominator, i.e. when the Python code raises `ZeroDivisionError`. -/
def highRulesAtrE (price prev : ℚ) (atrL : List ℚ) :
    Option (List (Sig × ℚ)) :=
  if 0 < atrL.length ∧ 0 < lastD atrL then do
    let r ← divE (lastD atrL) price
    if 0.01 < r then do
      let pc ← divE (price - prev) prev
      some (if 0.001 < pc then [(Sig.BUY, 0.3)]
            else if pc < -0.001 then [(Sig.SELL, 0.3)] else [])
    else some []
  else some []

/-- Checked `HighRiskStrategy._analyze_signals` sub-rule evaluation
(sub-rules 1–7 contain no division and cannot raise). -/
def highRulesE (price prev : ℚ) (sma20 rsiL macdL macdS bbU bbL stochK stochD
    atrL willR cciL adxL : List ℚ) : Option (List (Sig × ℚ)) := do
  let r8 ← highRulesAtrE price prev atrL
  some (highRules1to7 price sma20 rsiL macdL macdS bbU bbL stochK stochD
    willR cciL adxL ++ r8)

/-- Checked `LowRiskStrategy` sub-rule 5 (`atr[-1]/current_price`, reached
when `atr[-1] > 0`). -/
def lowRulesAtrE (price : ℚ) (sma50 atrL : List ℚ) :
    Option (List (Sig × ℚ)) :=
  if 0 < atrL.length ∧ 0 < lastD atrL then do
    let r ← divE (lastD atrL) price
    some (if r < 0.005 then
            (if lastD sma50 < price then [(Sig.BUY, 0.6)]
             else if price < lastD sma50 then [(Sig.SELL, 0.6)] else [])
          else [])
  else some []

/-- Checked `LowRiskStrategy` sub-rule 8 (`atr[-1]/current_price`, reached
when `volume_ratio > 1.5` and `len(atr) > 0`). -/
def lowRulesVolAtrE (price : ℚ) (sma20 vols atrL : List ℚ) :
    Option (List (Sig × ℚ)) :=
  if 10 ≤ vols.length then
    (if 1.5 < volumeRat vols ∧ 0 < atrL.length then do
       let r ← divE (lastD atrL) price
       some (if 0.01 < r then
               (if lastD sma20 < price then [(Sig.BUY, 0.5)]
                else if price < lastD sma20 then [(Sig.SELL, 0.5)] else [])
             else [])
     else some [])
  else some []

/-- Checked `LowRiskStrategy._analyze_signals` sub-rule evaluation
(sub-rules 1–4 and 6–7 cannot raise). -/
def lowRulesE (price : ℚ) (sma20 sma50 rsiL macdL macdS bbU bbL vols atrL
    willR cciL adxL : List ℚ) : Option (List (Sig × ℚ)) := do
  let r5 ← lowRulesAtrE price sma50 atrL
  let r8 ← lowRulesVolAtrE price sma20 vols atrL
  some (lowRules1to4 price sma20 sma50 rsiL macdL macdS bbU bbL vols ++ r5 ++
    lowRules6to7 price sma50 macdL macdS willR cciL adxL ++ r8)

/-- Checked `firedRules`: `none` exactly when the variant's sub-rule
evaluation raises `ZeroDivisionError` (the medium variant contains no
raising division — its only division, the `np.float64` `bb_position`, yields
NaN/±inf instead of raising). -/
def firedRulesE (kind : RiskKind) (stdFn : List ℚ → ℚ)
    (candles : List Candle) : Option (List (Sig × ℚ)) :=
  let closes := candles.map Candle.close
  let highs := candles.map Candle.high
  let lows := candles.map Candle.low
  let vols := candles.map Candle.volume
  let sma20 := sma closes 20
  let sma50 := sma closes 50
  let ema12 := ema closes 12
  let ema26 := ema closes 26
  let rsiL := rsi closes 14
  let m := macd closes 12 26 9
  let bb := bollinger_bands stdFn closes 20 2
  let st := stochastic highs lows closes 14 3
  let atrL := atr highs lows closes 14
  let willR := williams_r highs lows closes 14
  let cciL := cci highs lows closes 20
  let adxL := adx highs lows closes 14
  let current := lastD closes
  let prev := if 1 < closes.length then last2 closes else current
  match kind with
  | RiskKind.high =>
      highRulesE current prev sma20 rsiL m.1 m.2.1 bb.1 bb.2.2 st.1 st.2 atrL
        willR cciL adxL
  | RiskKind.medium =>
      some (mediumRules current sma20 sma50 ema12 ema26 rsiL m.1 m.2.2 bb.1
        bb.2.2 willR cciL adxL)
  | RiskKind.low =>
      lowRulesE current sma20 sma50 rsiL m.1 m.2.1 bb.1 bb.2.2 vols atrL
        willR cciL adxL

/-- Checked `AITradingStrategy.analyze_market`: `none` exactly when the
sub-rule evaluation raises `ZeroDivisionError` (the `len < 50` early return
happens before any indicator or sub-rule). -/
def analyzeMarketE (kind : RiskKind) (stdFn : List ℚ → ℚ) (threshold : ℚ)
    (candles : List Candle) : Option SignalResult :=
  if candles.length < 50 then some ⟨Sig.HOLD, 0, Reason.insufficientData⟩
  else Option.map (aggregate kind threshold) (firedRulesE kind stdFn candles)

/-! ## Support lemmas -/

theorem sma_length (data : List ℚ) (p : ℕ) : (sma data p).length = data.length := by
  unfold sma
  split <;> simp

theorem emaGo_length (m prev : ℚ) (l : List ℚ) : (emaGo m prev l).length = l.length := by
  induction l generalizing prev with
  | nil => rfl
  | cons x xs ih => simp [emaGo, ih]

theorem ema_length (data : List ℚ) (p : ℕ) (hp : 1 ≤ p) :
    (ema data p).length = data.length := by
  unfold ema
  split
  · simp
  · rename_i h
    simp [emaGo_length]
    omega

theorem rsi_length (data : List ℚ) (p : ℕ) : (rsi data p).length = data.length := by
  unfold rsi
  split
  · simp
  · rename_i h
    simp
    omega

theorem macd_length (data : List ℚ) (fast slow sig : ℕ) (hsig : 1 ≤ sig) :
    (macd data fast slow sig).1.length = data.length ∧
    (macd data fast slow sig).2.1.length = data.length ∧
    (macd data fast slow sig).2.2.length = data.length := by
  unfold macd
  refine ⟨by simp, ?_, by simp⟩
  have h1 : ((List.range data.length).map (fun i =>
      (ema data fast).getD i 0 - (ema data slow).getD i 0)).length = data.length := by
    simp
  simpa [ema_length _ _ hsig] using
    (ema_length ((List.range data.length).map (fun i =>
      (ema data fast).getD i 0 - (ema data slow).getD i 0)) sig hsig).trans h1

theorem bollinger_bands_length (stdFn : List ℚ → ℚ) (data : List ℚ) (p : ℕ)
    (sd : ℚ) :
    (bollinger_bands stdFn data p sd).1.length = data.length ∧
    (bollinger_bands stdFn data p sd).2.1.length = data.length ∧
    (bollinger_bands stdFn data p sd).2.2.length = data.length := by
  unfold bollinger_bands
  exact ⟨by simp, by simpa using sma_length data p, by simp⟩

theorem stochastic_length (high low close : List ℚ) (kp dp : ℕ) :
    (stochastic high low close kp dp).1.length = close.length ∧
    (stochastic high low close kp dp).2.length = close.length := by
  unfold stochastic
  constructor
  · simp
  · simpa using (sma_length _ dp).trans (by simp)

theorem trList_length (high low close : List ℚ) :
    (trList high low close).length = high.length - 1 := by
  simp [trList]

theorem atr_length (high low close : List ℚ) (p : ℕ) :
    (atr high low close p).length = high.length := by
  unfold atr
  split
  · simp
  · rename_i h
    simp [sma_length, trList_length]

theorem williams_r_length (high low close : List ℚ) (p : ℕ) :
    (williams_r high low close p).length = close.length := by
  simp [williams_r]

theorem cci_length (high low close : List ℚ) (p : ℕ) :
    (cci high low close p).length = close.length := by
  simp [cci]

theorem dmPlusList_length (high low : List ℚ) :
    (dmPlusList high low).length = high.length - 1 := by
  simp [dmPlusList]

theorem adx_length (high low close : List ℚ) (p : ℕ) :
    (adx high low close p).length = high.length := by
  unfold adx
  split
  · simp
  · rename_i h
    simp [dmPlusList_length]

/-! ## Claim theorems -/

/-- C7: for every candle list of length < 50, `analyze_market` of every risk
variant returns HOLD with confidence exactly 0 and reason "Insufficient
data", without evaluating any sub-rule. -/
theorem C7_insufficient_data (kind : RiskKind) (stdFn : List ℚ → ℚ)
    (threshold : ℚ) (candles : List Candle) (h : candles.length < 50) :
    analyzeMarket kind stdFn threshold candles =
      ⟨Sig.HOLD, 0, Reason.insufficientData⟩ := by
  simp [analyzeMarket, h]

/-- Witness for C7 at the empty candle list. -/
theorem C7_insufficient_data_witness :
    ([] : List Candle).length < 50 ∧
    analyzeMarket RiskKind.high (fun _ => 0) (7/10) [] =
      ⟨Sig.HOLD, 0, Reason.insufficientData⟩ :=
  ⟨by decide, C7_insufficient_data RiskKind.high (fun _ => 0) (7/10) [] (by decide)⟩


theorem createOrUpdatePosition_fields (pos : Option Position) (side : Side)
    (q e l : ℚ) :
    (createOrUpdatePosition pos side q e l).side = some side ∧
    (createOrUpdatePosition pos side q e l).qty = q ∧
    (createOrUpdatePosition pos side q e l).entryPrice = e := by
  unfold createOrUpdatePosition
  cases pos <;> split_ifs <;> simp

/-- C8: the exit check fires exactly on the inclusive boundaries
`pnl_pct ≤ -stop_loss_pct` (STOP_LOSS) and `pnl_pct ≥ take_profit_pct`
(TAKE_PROFIT), forces a full close, and for a LONG with entry 100 the
triggers are exactly `latest ≤ 98` (SL 2%) and `latest ≥ 103` (TP 3%). -/
theorem C8_exit_boundaries (p : Position) (sl tp : ℚ) (hq : p.qty ≠ 0)
    (hsl : 0 < sl) (htp : 0 < tp) :
    ((checkExitCondition p sl tp).isSome ↔ pnlPct p ≤ -sl ∨ tp ≤ pnlPct p) ∧
    (checkExitCondition p sl tp = some ExitReason.stopLoss ↔ pnlPct p ≤ -sl) ∧
    (checkExitCondition p sl tp = some ExitReason.takeProfit ↔ tp ≤ pnlPct p) ∧
    (0 < p.qty → closePosition (some p) (some p.qty) =
       some { p with qty := 0, side := none, entryPrice := 0, unrealizedPnl := 0 }) ∧
    (∀ latest : ℚ,
       (checkExitCondition ⟨some Side.BUY, 1, 100, latest, 0⟩ 2 3 =
          some ExitReason.stopLoss ↔ latest ≤ 98) ∧
       (checkExitCondition ⟨some Side.BUY, 1, 100, latest, 0⟩ 2 3 =
          some ExitReason.takeProfit ↔ 103 ≤ latest)) := by
  refine ⟨?_, ?_, ?_, ?_, ?_⟩
  · unfold checkExitCondition
    rw [if_neg hq]
    split_ifs with h1 h2
    · simp [h1]
    · simp [h2]
    · simp [h1, h2]
  · unfold checkExitCondition
    rw [if_neg hq]
    split_ifs with h1 h2
    · simp [h1]
    · simp [h1]
    · simp [h1]
  · unfold checkExitCondition
    rw [if_neg hq]
    split_ifs with h1 h2
    · simp only [Option.some.injEq]
      constructor
      · intro hh
        cases hh
      · intro hh
        linarith
    · simp [h2]
    · simp [h2]
  · intro hpos
    simp [closePosition, not_le.mpr hpos]
  · intro latest
    have hpp : pnlPct ⟨some Side.BUY, 1, 100, latest, 0⟩ = latest - 100 := by
      unfold pnlPct
      norm_num
    constructor
    · unfold checkExitCondition
      dsimp only
      rw [hpp, if_neg (show ¬(1:ℚ) = 0 by norm_num)]
      split_ifs with h1 h2 <;> simp_all <;> linarith
    · unfold checkExitCondition
      dsimp only
      rw [hpp, if_neg (show ¬(1:ℚ) = 0 by norm_num)]
      split_ifs with h1 h2 <;> simp_all <;> linarith

/-- Witness for C8 at a LONG position with entry 100, latest 98, SL 2%,
TP 3%: the stop-loss fires exactly at the boundary. -/
theorem C8_exit_boundaries_witness :
    (⟨some Side.BUY, 1, 100, 98, 0⟩ : Position).qty ≠ 0 ∧ (0:ℚ) < 2 ∧ (0:ℚ) < 3 ∧
    (checkExitCondition ⟨some Side.BUY, 1, 100, 98, 0⟩ 2 3 =
       some ExitReason.stopLoss ↔ (98:ℚ) ≤ 98) := by
  refine ⟨by decide, by norm_num, by norm_num, ?_⟩
  exact ((C8_exit_boundaries ⟨some Side.BUY, 1, 100, 98, 0⟩ 2 3 (by decide)
    (by norm_num) (by norm_num)).2.2.2.2 98).1

theorem processStrategyTick_daily_le (st : StratState) (d : ℤ) (m : ℕ)
    (w : Bool) (h : st.dailyTrades ≤ m) :
    (processStrategyTick st d m w).1.dailyTrades ≤ m := by
  unfold processStrategyTick rollDaily
  split_ifs <;> simp_all <;> omega

theorem runTicks_daily_le (m : ℕ) (evs : List (ℤ × Bool)) :
    ∀ st : StratState, st.dailyTrades ≤ m →
      (runTicks m st evs).dailyTrades ≤ m := by
  induction evs with
  | nil => intro st h; exact h
  | cons e es ih =>
      intro st h
      exact ih _ (processStrategyTick_daily_le st e.1 m e.2 h)

/-- C9: a strategy at its daily cap performs no entry processing; the counter
never exceeds `max_daily_trades` along any run from the initial state; the
counter resets to 0 exactly when the calendar date differs from the stored
`last_trade_date`; and with `max_daily_trades = 1` and one trade recorded
today, entry evaluation is skipped until the date changes, after which exactly
one more trade is allowed. -/
theorem C9_daily_trade_cap (st : StratState) (today : ℤ) (m : ℕ) (w : Bool) :
    (st.lastTradeDate = some today → m ≤ st.dailyTrades →
       processStrategyTick st today m w = (st, false)) ∧
    (st.lastTradeDate ≠ some today →
       (processStrategyTick st today m w).1 =
         (if 0 < m ∧ w = true then ⟨1, some today⟩ else ⟨0, some today⟩)) ∧
    (st.lastTradeDate = some today →
       (processStrategyTick st today m w).1.lastTradeDate = st.lastTradeDate ∧
       (processStrategyTick st today m w).1.dailyTrades =
         st.dailyTrades + (if st.dailyTrades < m ∧ w = true then 1 else 0)) ∧
    (st.dailyTrades ≤ m → (processStrategyTick st today m w).1.dailyTrades ≤ m) ∧
    (∀ evs : List (ℤ × Bool), (runTicks m ⟨0, none⟩ evs).dailyTrades ≤ m) ∧
    (∀ d dNew : ℤ, d ≠ dNew →
       processStrategyTick ⟨1, some d⟩ d 1 w = (⟨1, some d⟩, false) ∧
       processStrategyTick ⟨1, some d⟩ dNew 1 true = (⟨1, some dNew⟩, true) ∧
       processStrategyTick ⟨1, some dNew⟩ dNew 1 w = (⟨1, some dNew⟩, false)) := by
  refine ⟨?_, ?_, ?_, ?_, ?_, ?_⟩
  · intro hdate hcap
    have hroll : rollDaily st today = st := by
      unfold rollDaily
      simp [hdate]
    unfold processStrategyTick
    rw [hroll, if_pos hcap]
  · intro hdate
    have hroll : rollDaily st today = ⟨0, some today⟩ := by
      unfold rollDaily
      simp [hdate]
    unfold processStrategyTick
    rw [hroll]
    rcases Nat.eq_zero_or_pos m with hm | hm
    · subst hm
      simp
    · cases w <;> simp [Nat.not_le.mpr hm, hm]
  · intro hdate
    have hroll : rollDaily st today = st := by
      unfold rollDaily
      simp [hdate]
    unfold processStrategyTick
    rw [hroll]
    by_cases hcap : m ≤ st.dailyTrades
    · simp [hcap, hdate, Nat.not_lt.mpr hcap]
    · cases w <;> simp [hcap, hdate, Nat.lt_of_not_le hcap]
  · exact processStrategyTick_daily_le st today m w
  · intro evs
    exact runTicks_daily_le m evs ⟨0, none⟩ (Nat.zero_le m)
  · intro d dNew hne
    refine ⟨?_, ?_, ?_⟩
    · unfold processStrategyTick rollDaily
      simp
    · unfold processStrategyTick rollDaily
      simp [hne]
    · unfold processStrategyTick rollDaily
      simp

/-- Witness for C9: with `max_daily_trades = 1` and one trade recorded today
(date 0), the same-day tick skips entry processing entirely. -/
theorem C9_daily_trade_cap_witness :
    (0:ℤ) ≠ 1 ∧
    processStrategyTick ⟨1, some 0⟩ 0 1 true = (⟨1, some 0⟩, false) :=
  ⟨by decide,
   ((C9_daily_trade_cap ⟨1, some 0⟩ 0 1 true).2.2.2.2.2 0 1 (by decide)).1⟩

/-- C10: on a qualifying signal opposite to the tracked position's side, the
runner does not apply the ledger's flip rule: `_open_position` overwrites the
position in place via `create_or_update_position` (side, qty and entry price
replaced by the trade's side, leveraged quantity and price) and records
`pnl = 0.0`, while the ledger's own flip rule at the same trade realizes a
non-zero PnL (concrete contrast in the final conjuncts). -/
theorem C10_runner_overwrites_no_flip (p : Position) (signalSide : Side)
    (price sizeUsd lev : ℚ) (hside : p.side ≠ some signalSide) :
    (processTradingSignal (some p) signalSide price sizeUsd lev =
       some (createOrUpdatePosition (some p) signalSide (sizeUsd / price * lev)
         price price, 0)) ∧
    (createOrUpdatePosition (some p) signalSide (sizeUsd / price * lev)
       price price).side = some signalSide ∧
    (createOrUpdatePosition (some p) signalSide (sizeUsd / price * lev)
       price price).qty = sizeUsd / price * lev ∧
    (createOrUpdatePosition (some p) signalSide (sizeUsd / price * lev)
       price price).entryPrice = price ∧
    (updatePositionOnTrade (some ⟨some Side.SELL, 5, 100, 100, 0⟩)
       Side.BUY 90 5).2 = 50 ∧
    engineOpenPosition (some ⟨some Side.SELL, 5, 100, 100, 0⟩) Side.BUY 90 450 1 =
      (⟨some Side.BUY, 5, 90, 90, 0⟩, 0) := by
  have hf := createOrUpdatePosition_fields (some p) signalSide
    (sizeUsd / price * lev) price price
  refine ⟨?_, hf.1, hf.2.1, hf.2.2, ?_, ?_⟩
  · simp [processTradingSignal, engineOpenPosition, hside]
  · norm_num [updatePositionOnTrade, closePosition]
    simp
  · norm_num [engineOpenPosition, createOrUpdatePosition]

/-- Witness for C10: a tracked SELL position receiving a qualifying BUY at
price 90 is overwritten to a fresh BUY position with pnl 0 — the 50 the
ledger's flip rule would realize is never computed on this path. -/
theorem C10_runner_overwrites_no_flip_witness :
    (⟨some Side.SELL, 5, 100, 100, 0⟩ : Position).side ≠ some Side.BUY ∧
    processTradingSignal (some ⟨some Side.SELL, 5, 100, 100, 0⟩)
        Side.BUY 90 450 1 =
      some (⟨some Side.BUY, 5, 90, 90, 0⟩, 0) := by
  constructor
  · decide
  · have h := (C10_runner_overwrites_no_flip ⟨some Side.SELL, 5, 100, 100, 0⟩
      Side.BUY 90 450 1 (by decide)).1
    rw [h]
    norm_num [createOrUpdatePosition]

/-- C1: the position-ledger trade application, for incoming `qty > 0`:
open on FLAT (realized 0), same-side weighted-average accumulate (realized 0),
partial close below the held quantity (entry unchanged), full close at equal
quantity (`side = none`), and flip above it (remaining quantity opens the
opposite side at entry `price`), with the realized PnL sign-mirrored for
SHORT; `_update_position_on_trade` of `multi_symbol_service.py` agrees with
`update_position_on_trade` of `main.py` on the ledger's domain (`qty ≥ 0`). -/
theorem C1_position_ledger_cases (pos : Option Position) (side : Side)
    (price qty : ℚ) (hq : 0 < qty) :
    ((pos = none ∨ ∃ p, pos = some p ∧ (p.qty = 0 ∨ p.side = none)) →
       ∃ p', updatePositionOnTrade pos side price qty = (some p', 0) ∧
         p'.side = some side ∧ p'.qty = qty ∧ p'.entryPrice = price) ∧
    (∀ p, pos = some p → p.side = some side → 0 < p.qty →
       ∃ p', updatePositionOnTrade pos side price qty = (some p', 0) ∧
         p'.side = some side ∧ p'.qty = p.qty + qty ∧
         p'.entryPrice = (p.entryPrice * p.qty + price * qty) / (p.qty + qty)) ∧
    (∀ p s, pos = some p → p.side = some s → s ≠ side → 0 < p.qty →
       qty < p.qty →
       ∃ p', updatePositionOnTrade pos side price qty =
           (some p', if s = Side.BUY then (price - p.entryPrice) * qty
                     else (p.entryPrice - price) * qty) ∧
         p'.side = some s ∧ p'.qty = p.qty - qty ∧
         p'.entryPrice = p.entryPrice) ∧
    (∀ p s, pos = some p → p.side = some s → s ≠ side → 0 < p.qty →
       qty = p.qty →
       ∃ p', updatePositionOnTrade pos side price qty =
           (some p', if s = Side.BUY then (price - p.entryPrice) * p.qty
                     else (p.entryPrice - price) * p.qty) ∧
         p'.side = none ∧ p'.qty = 0) ∧
    (∀ p s, pos = some p → p.side = some s → s ≠ side → 0 < p.qty →
       p.qty < qty →
       ∃ p', updatePositionOnTrade pos side price qty =
           (some p', if s = Side.BUY then (price - p.entryPrice) * p.qty
                     else (p.entryPrice - price) * p.qty) ∧
         p'.side = some side ∧ p'.qty = qty - p.qty ∧
         p'.entryPrice = price) ∧
    ((∀ p, pos = some p → 0 ≤ p.qty) →
       musUpdatePositionOnTrade pos side price qty =
         updatePositionOnTrade pos side price qty) := by
  refine ⟨?_, ?_, ?_, ?_, ?_, ?_⟩
  · rintro (rfl | ⟨p, rfl, hflat⟩)
    · exact ⟨_, rfl, createOrUpdatePosition_fields none side qty price price⟩
    · cases hps : p.side with
      | none =>
          refine ⟨_, ?_, createOrUpdatePosition_fields (some p) side qty price price⟩
          simp [updatePositionOnTrade, hps]
      | some s =>
          have hq0 : p.qty = 0 := by
            rcases hflat with h | h
            · exact h
            · rw [hps] at h
              cases h
          refine ⟨_, ?_, createOrUpdatePosition_fields (some p) side qty price price⟩
          simp [updatePositionOnTrade, hps, hq0]
  · rintro p rfl hps hq0
    have hnq : 0 < p.qty + qty := by linarith
    refine ⟨_, ?_, createOrUpdatePosition_fields (some p) side (p.qty + qty)
      ((p.entryPrice * p.qty + price * qty) / (p.qty + qty)) price⟩
    simp [updatePositionOnTrade, hps, ne_of_gt hq0, hnq]
  · rintro p s rfl hps hs hq0 hlt
    refine ⟨_, ?_, createOrUpdatePosition_fields (some p) s (p.qty - qty)
      p.entryPrice price⟩
    simp [updatePositionOnTrade, hps, ne_of_gt hq0, (Ne.symm hs), hlt]
  · rintro p s rfl hps hs hq0 heq
    refine ⟨{ p with qty := 0, side := none, entryPrice := 0, unrealizedPnl := 0 }, ?_, rfl, rfl⟩
    have h1 : ¬ (side = s) := Ne.symm hs
    have h2 : ¬ (qty < p.qty) := by rw [heq]; exact lt_irrefl _
    simp only [updatePositionOnTrade, hps, if_neg (ne_of_gt hq0), h1, if_false,
      if_neg h2, if_pos heq]
    rw [heq]
    simp [closePosition, not_le.mpr hq0]
  · rintro p s rfl hps hs hq0 hgt
    refine ⟨_, ?_, createOrUpdatePosition_fields (some p) side (qty - p.qty)
      price price⟩
    have h2 : ¬ (qty < p.qty) := by exact not_lt.mpr (le_of_lt hgt)
    have h3 : ¬ (qty = p.qty) := ne_of_gt hgt
    simp [updatePositionOnTrade, hps, ne_of_gt hq0, (Ne.symm hs), h2, h3]
  · intro h
    cases pos with
    | none => rfl
    | some p =>
        have h0 : 0 ≤ p.qty := h p rfl
        cases hps : p.side with
        | none => simp [musUpdatePositionOnTrade, updatePositionOnTrade, hps]
        | some ps =>
            by_cases hq0 : p.qty = 0
            · simp [musUpdatePositionOnTrade, updatePositionOnTrade, hps, hq0]
            · by_cases hss : side = ps
              · have hpos' : 0 < p.qty + qty := by
                  have : 0 < p.qty := lt_of_le_of_ne h0 (Ne.symm hq0)
                  linarith
                simp [musUpdatePositionOnTrade, updatePositionOnTrade, hps, hq0,
                  hss, hpos']
              · simp [musUpdatePositionOnTrade, updatePositionOnTrade, hps, hq0,
                  hss]

/-- Witness for C1 (the spec's flip test): LONG qty 10 at entry 100 receiving
SELL qty 15 at price 110 realizes (110-100)*10 = 100 and leaves SHORT qty 5
at entry 110. -/
theorem C1_position_ledger_cases_witness :
    (0:ℚ) < 15 ∧
    ∃ p', updatePositionOnTrade (some ⟨some Side.BUY, 10, 100, 100, 0⟩)
        Side.SELL 110 15 = (some p', 100) ∧
      p'.side = some Side.SELL ∧ p'.qty = 5 ∧ p'.entryPrice = 110 := by
  refine ⟨by norm_num, ?_⟩
  obtain ⟨p', heq, h1, h2, h3⟩ :=
    (C1_position_ledger_cases (some ⟨some Side.BUY, 10, 100, 100, 0⟩) Side.SELL
        110 15 (by norm_num)).2.2.2.2.1
      ⟨some Side.BUY, 10, 100, 100, 0⟩ Side.BUY rfl rfl (by decide)
      (by norm_num) (by norm_num)
  refine ⟨p', ?_, h1, by rw [h2]; norm_num, h3⟩
  rw [heq]
  norm_num

theorem getD_map_range (n i : ℕ) (f : ℕ → ℚ) (h : i < n) :
    ((List.range n).map f).getD i 0 = f i := by
  rw [List.getD_eq_getElem?_getD, List.getElem?_map, List.getElem?_range h]
  rfl

theorem getD_map_range' (s n i : ℕ) (f : ℕ → ℚ) (h : i < n) :
    ((List.range' s n).map f).getD i 0 = f (s + i) := by
  rw [List.getD_eq_getElem?_getD, List.getElem?_map, List.getElem?_range' s 1 h]
  simp

theorem getD_replicate_of_lt {n i : ℕ} {a d : ℚ} (h : i < n) :
    (List.replicate n a).getD i d = a := by
  rw [List.getD_eq_getElem?_getD, List.getElem?_replicate, if_pos h]
  rfl

theorem rsiLosses_length (data : List ℚ) :
    (rsiLosses data).length = data.length - 1 := by
  simp [rsiLosses, rsiDeltas]

theorem rsiGains_length (data : List ℚ) :
    (rsiGains data).length = data.length - 1 := by
  simp [rsiGains, rsiDeltas]

/-- C4: for nonempty data and any period ≥ 1, the last RSI value is exactly
50 (for short inputs the whole output is 50s; otherwise the final loop index
fails the source's bounds check against the `len(data)-1`-element
`avg_gains`/`avg_losses` lists and appends the fallback 50), so the
`rsi[-1] < 30` / `rsi[-1] > 70` sub-rule conditions can never fire. -/
theorem C4_rsi_last_is_50 (data : List ℚ) (p : ℕ) (hne : data ≠ [])
    (hp : 1 ≤ p) :
    lastD (rsi data p) = 50 ∧
    (data.length < p + 1 → ∀ x ∈ rsi data p, x = 50) ∧
    ¬ lastD (rsi data p) < 30 ∧ ¬ 70 < lastD (rsi data p) := by
  have hlen0 : 0 < data.length := List.length_pos.mpr hne
  have hmain : lastD (rsi data p) = 50 := by
    unfold rsi
    split
    · unfold lastD
      simp only [List.length_replicate]
      exact getD_replicate_of_lt (by omega)
    · rename_i h
      unfold lastD
      have hll : (sma (rsiLosses data) p).length = data.length - 1 := by
        rw [sma_length]
        exact rsiLosses_length data
      have hlen : (List.replicate p (50:ℚ) ++
          (List.range' p (data.length - p)).map
            (rsiTail (sma (rsiGains data) p) (sma (rsiLosses data) p))).length =
          data.length := by
        simp
        omega
      rw [hlen]
      rw [List.getD_append_right _ _ _ _ (by simp; omega)]
      simp only [List.length_replicate]
      rw [getD_map_range' p (data.length - p) (data.length - 1 - p) _ (by omega)]
      have hidx : p + (data.length - 1 - p) = data.length - 1 := by omega
      rw [hidx]
      unfold rsiTail
      rw [if_neg (by rw [hll]; rintro ⟨hlt, _⟩; omega),
          if_neg (by rw [hll]; rintro ⟨hlt, _⟩; omega)]
  refine ⟨hmain, ?_, by rw [hmain]; norm_num, by rw [hmain]; norm_num⟩
  intro hshort x hx
  unfold rsi at hx
  rw [if_pos hshort] at hx
  exact List.eq_of_mem_replicate hx

/-- Witness for C4 on a concrete 3-element input with the default period 14
(short input: all 50s) — the last RSI value is 50 and neither extreme
sub-rule condition can hold. -/
theorem C4_rsi_last_is_50_witness :
    ([100, 105, 101] : List ℚ) ≠ [] ∧ 1 ≤ 14 ∧
    lastD (rsi [100, 105, 101] 14) = 50 :=
  ⟨by decide, by decide,
   (C4_rsi_last_is_50 [100, 105, 101] 14 (by decide) (by decide)).1⟩

/-- C5: RSI values before warm-up are exactly 50, Williams %R values before
warm-up are exactly -50, and CCI values before warm-up — and at any index
with zero mean deviation — are exactly 0. -/
theorem C5_neutral_fills (data high low close : List ℚ) (p i : ℕ) :
    (i < p → i < data.length → (rsi data p).getD i 0 = 50) ∧
    (i < p - 1 → i < close.length →
       (williams_r high low close p).getD i 0 = -50) ∧
    (i < p - 1 → i < close.length → (cci high low close p).getD i 0 = 0) ∧
    (cciMeanDev high low close p i = 0 → i < close.length →
       (cci high low close p).getD i 0 = 0) := by
  refine ⟨?_, ?_, ?_, ?_⟩
  · intro hip hilen
    unfold rsi
    split
    · exact getD_replicate_of_lt hilen
    · rw [List.getD_append _ _ _ _ (by simp; omega)]
      exact getD_replicate_of_lt hip
  · intro hip hilen
    unfold williams_r
    rw [getD_map_range _ _ _ hilen, if_pos hip]
  · intro hip hilen
    unfold cci
    rw [getD_map_range _ _ _ hilen, if_pos hip]
  · intro hmd hilen
    unfold cci
    rw [getD_map_range _ _ _ hilen]
    by_cases hip : i < p - 1
    · rw [if_pos hip]
    · rw [if_neg hip, if_pos hmd]

/-- Witness for C5 at index 3 of a 5-element input with period 14: RSI 50,
Williams %R -50, CCI 0. -/
theorem C5_neutral_fills_witness :
    3 < 14 ∧ 3 < ([1, 2, 3, 4, 5] : List ℚ).length ∧
    (rsi [1, 2, 3, 4, 5] 14).getD 3 0 = 50 ∧
    (williams_r [1, 2, 3, 4, 5] [1, 2, 3, 4, 5] [1, 2, 3, 4, 5] 14).getD 3 0 = -50 ∧
    (cci [1, 2, 3, 4, 5] [1, 2, 3, 4, 5] [1, 2, 3, 4, 5] 14).getD 3 0 = 0 := by
  have h := C5_neutral_fills [1, 2, 3, 4, 5] [1, 2, 3, 4, 5] [1, 2, 3, 4, 5]
    [1, 2, 3, 4, 5] 14 3
  exact ⟨by decide, by decide,
    h.1 (by decide) (by decide),
    h.2.1 (by decide) (by decide),
    h.2.2.1 (by decide) (by decide)⟩

/-- C2 (amended to periods ≥ 1, see the counterexample): every indicator
output sequence has exactly the input length. -/
theorem C2_length_invariant (data h l c : List ℚ) (p fast slow sig kp dp : ℕ)
    (hp : 1 ≤ p) (hfast : 1 ≤ fast) (hslow : 1 ≤ slow) (hsig : 1 ≤ sig)
    (hkp : 1 ≤ kp) (hdp : 1 ≤ dp)
    (hh : h.length = c.length) (hl : l.length = c.length)
    (stdFn : List ℚ → ℚ) (sd : ℚ) :
    (sma data p).length = data.length ∧
    (ema data p).length = data.length ∧
    (rsi data p).length = data.length ∧
    (macd data fast slow sig).1.length = data.length ∧
    (macd data fast slow sig).2.1.length = data.length ∧
    (macd data fast slow sig).2.2.length = data.length ∧
    (bollinger_bands stdFn data p sd).1.length = data.length ∧
    (bollinger_bands stdFn data p sd).2.1.length = data.length ∧
    (bollinger_bands stdFn data p sd).2.2.length = data.length ∧
    (stochastic h l c kp dp).1.length = c.length ∧
    (stochastic h l c kp dp).2.length = c.length ∧
    (atr h l c p).length = c.length ∧
    (williams_r h l c p).length = c.length ∧
    (cci h l c p).length = c.length ∧
    (adx h l c p).length = c.length := by
  have hm := macd_length data fast slow sig hsig
  have hb := bollinger_bands_length stdFn data p sd
  have hs := stochastic_length h l c kp dp
  exact ⟨sma_length data p, ema_length data p hp, rsi_length data p,
    hm.1, hm.2.1, hm.2.2, hb.1, hb.2.1, hb.2.2, hs.1, hs.2,
    (atr_length h l c p).trans hh, williams_r_length h l c p,
    cci_length h l c p, (adx_length h l c p).trans hh⟩

/-- Witness for C2 (amended) at singleton inputs and all periods 1. -/
theorem C2_length_invariant_witness :
    (1:ℕ) ≤ 1 ∧ ([2] : List ℚ).length = ([3] : List ℚ).length ∧
    (rsi [1] 1).length = ([1] : List ℚ).length ∧
    (adx [2] [2] [3] 1).length = ([3] : List ℚ).length := by
  have hw := C2_length_invariant [1] [2] [2] [3] 1 1 1 1 1 1 (le_refl 1)
    (le_refl 1) (le_refl 1) (le_refl 1) (le_refl 1) (le_refl 1) rfl rfl
    (fun _ => 0) 2
  exact ⟨le_refl 1, rfl, hw.2.2.1, hw.2.2.2.2.2.2.2.2.2.2.2.2.2.2⟩

/-- Counterexample to C2 as stated: at period 0 the Python `sma` computes
`sum(data[i+1:i+1]) / period` and raises `ZeroDivisionError` on any nonempty
input, so no output sequence exists at all; the checked evaluation returns
`none` at `data = [1.0], period = 0`. -/
theorem C2_counterexample : smaE [1] 0 = none := by decide

theorem mapE_eq_map {α β : Type} (f : α → Option β) (g : α → β)
    (lst : List α) (hfg : ∀ a ∈ lst, f a = some (g a)) :
    mapE f lst = some (lst.map g) := by
  induction lst with
  | nil => rfl
  | cons x xs ih =>
      simp [mapE, hfg x (by simp), ih (fun a ha => hfg a (by simp [ha]))]

theorem window_subset (data : List ℚ) (i p : ℕ) :
    ∀ x ∈ window data i p, x ∈ data := by
  intro x hx
  unfold window at hx
  exact List.mem_of_mem_drop (List.mem_of_mem_take hx)

theorem getD_nonneg (l : List ℚ) (hl : ∀ y ∈ l, 0 ≤ y) (i : ℕ) :
    0 ≤ l.getD i 0 := by
  rw [List.getD_eq_getElem?_getD]
  cases hx : l[i]? with
  | none => simp
  | some v =>
      simp only [Option.getD_some]
      exact hl v (List.getElem?_mem hx)

theorem sma_nonneg (data : List ℚ) (p : ℕ) (hd : ∀ y ∈ data, 0 ≤ y) :
    ∀ y ∈ sma data p, 0 ≤ y := by
  intro y hy
  unfold sma at hy
  split at hy
  · rw [List.eq_of_mem_replicate hy]
  · rw [List.mem_map] at hy
    obtain ⟨i, _, rfl⟩ := hy
    split
    · exact le_refl 0
    · apply div_nonneg
      · exact List.sum_nonneg (fun x hx => hd x (window_subset data i p x hx))
      · exact_mod_cast Nat.zero_le p

theorem smaE_eq (data : List ℚ) (p : ℕ) (hp : 1 ≤ p) :
    smaE data p = some (sma data p) := by
  unfold smaE sma
  split
  · rfl
  · apply mapE_eq_map
    intro i _
    by_cases hc : i < p - 1
    · simp [hc]
    · have hpne : ((p : ℚ)) ≠ 0 := Nat.cast_ne_zero.mpr (by omega)
      simp [hc, divE, hpne]

theorem rsiTailE_eq (data : List ℚ) (p i : ℕ) :
    rsiTailE (sma (rsiGains data) p) (sma (rsiLosses data) p) i =
      some (rsiTail (sma (rsiGains data) p) (sma (rsiLosses data) p) i) := by
  have hg : ∀ y ∈ sma (rsiGains data) p, 0 ≤ y := by
    apply sma_nonneg
    intro y hy
    unfold rsiGains at hy
    rw [List.mem_map] at hy
    obtain ⟨d, _, rfl⟩ := hy
    split
    · rename_i hd
      exact le_of_lt hd
    · exact le_refl 0
  have hl : ∀ y ∈ sma (rsiLosses data) p, 0 ≤ y := by
    apply sma_nonneg
    intro y hy
    unfold rsiLosses at hy
    rw [List.mem_map] at hy
    obtain ⟨d, _, rfl⟩ := hy
    split
    · rename_i hd
      linarith
    · exact le_refl 0
  unfold rsiTailE rsiTail
  by_cases h1 : i < (sma (rsiLosses data) p).length ∧
      (sma (rsiLosses data) p).getD i 0 = 0
  · rw [if_pos h1, if_pos h1]
  · by_cases h2 : i < (sma (rsiLosses data) p).length ∧
        i < (sma (rsiGains data) p).length
    · have hlne : (sma (rsiLosses data) p).getD i 0 ≠ 0 := by
        intro h0
        exact h1 ⟨h2.1, h0⟩
      have hlpos : 0 < (sma (rsiLosses data) p).getD i 0 :=
        lt_of_le_of_ne (getD_nonneg _ hl i) (Ne.symm hlne)
      have hgpos : 0 ≤ (sma (rsiGains data) p).getD i 0 := getD_nonneg _ hg i
      have hrs : (0:ℚ) < 1 + (sma (rsiGains data) p).getD i 0 /
          (sma (rsiLosses data) p).getD i 0 := by
        have hdiv : (0:ℚ) ≤ (sma (rsiGains data) p).getD i 0 /
            (sma (rsiLosses data) p).getD i 0 :=
          div_nonneg hgpos (le_of_lt hlpos)
        linarith
      rw [if_neg h1, if_neg h1, if_pos h2, if_pos h2]
      unfold divE
      rw [if_neg hlne]
      simp only [Option.bind_eq_bind, Option.some_bind]
      rw [if_neg (ne_of_gt hrs)]
      rw [Option.some_bind]
    · rw [if_neg h1, if_neg h1, if_neg h2, if_neg h2]

theorem rsiE_eq (data : List ℚ) (p : ℕ) (hp : 1 ≤ p) :
    rsiE data p = some (rsi data p) := by
  unfold rsiE rsi
  split
  · rfl
  · rw [smaE_eq _ _ hp, smaE_eq _ _ hp]
    simp only [Option.bind_eq_bind, Option.some_bind]
    rw [mapE_eq_map _ (rsiTail (sma (rsiGains data) p) (sma (rsiLosses data) p))
      _ (fun i _ => rsiTailE_eq data p i)]
    rfl

theorem stochasticE_eq (high low close : List ℚ) (kp dp : ℕ) (hdp : 1 ≤ dp) :
    stochasticE high low close kp dp = some (stochastic high low close kp dp) := by
  unfold stochasticE stochastic
  rw [mapE_eq_map _ (fun i =>
    if i < kp - 1 then (50:ℚ)
    else
      let hh := listMax (window high i kp)
      let ll := listMin (window low i kp)
      if hh ≠ ll then (close.getD i 0 - ll) / (hh - ll) * 100 else 50) _ ?kok]
  case kok =>
    intro i _
    by_cases hc : i < kp - 1
    · simp [hc]
    · by_cases hne : listMax (window high i kp) ≠ listMin (window low i kp)
      · simp [hc, hne, divE, sub_ne_zero.mpr hne]
      · simp [hc, hne]
  simp only [Option.bind_eq_bind, Option.some_bind]
  rw [smaE_eq _ _ hdp]
  rfl

theorem williams_rE_eq (high low close : List ℚ) (p : ℕ) :
    williams_rE high low close p = some (williams_r high low close p) := by
  unfold williams_rE williams_r
  apply mapE_eq_map
  intro i _
  by_cases hc : i < p - 1
  · simp [hc]
  · by_cases hne : listMax (window high i p) ≠ listMin (window low i p)
    · simp [hc, hne, divE, sub_ne_zero.mpr hne]
    · simp [hc, hne]

theorem cciE_eq (high low close : List ℚ) (p : ℕ) (hp : 1 ≤ p) :
    cciE high low close p = some (cci high low close p) := by
  unfold cciE cci
  apply mapE_eq_map
  intro i _
  by_cases hc : i < p - 1
  · simp [hc]
  · have hpne : ((p : ℚ)) ≠ 0 := Nat.cast_ne_zero.mpr (by omega)
    rw [if_neg hc, if_neg hc]
    have h1 : divE (((List.range' (i + 1 - p) p).map
        (typicalPrice high low close)).sum) (p : ℚ) =
        some (cciSmaTp high low close p i) := by
      unfold divE cciSmaTp
      rw [if_neg hpne]
    rw [h1]
    simp only [Option.bind_eq_bind, Option.some_bind]
    have h2 : divE (((List.range' (i + 1 - p) p).map (fun j =>
        |typicalPrice high low close j - cciSmaTp high low close p i|)).sum)
        (p : ℚ) = some (cciMeanDev high low close p i) := by
      unfold divE cciMeanDev
      rw [if_neg hpne]
    rw [h2]
    simp only [Option.bind_eq_bind, Option.some_bind]
    by_cases hmd : cciMeanDev high low close p i = 0
    · simp [hmd]
    · have hne : (3 / 200 : ℚ) * cciMeanDev high low close p i ≠ 0 :=
        mul_ne_zero (by norm_num) hmd
      simp [hmd, divE, hne]

theorem diPairValE_eq (p : ℕ) (dmP dmM trs : List ℚ) (i : ℕ) (hp : 1 ≤ p) :
    diPairValE p dmP dmM trs i = some (diPairVal p dmP dmM trs i) := by
  unfold diPairValE diPairVal
  by_cases hc : i < p - 1
  · simp [hc]
  · have hpne : ((p : ℚ)) ≠ 0 := Nat.cast_ne_zero.mpr (by omega)
    by_cases htr : (window trs i p).sum / (p : ℚ) = 0
    · simp [hc, divE, hpne, htr]
    · simp [hc, divE, hpne, htr]

theorem dxFunE_eq (diP diM : List ℚ) (i : ℕ) :
    dxFunE diP diM i = some (dxFun diP diM i) := by
  unfold dxFunE dxFun divE
  by_cases hc : 0 < diP.getD i 0 + diM.getD i 0
  · rw [if_pos hc, if_pos hc, if_neg (ne_of_gt hc)]
    rfl
  · rw [if_neg hc, if_neg hc]

theorem adxValE_eq (p : ℕ) (dx : ℕ → ℚ) (hp : 1 ≤ p) :
    ∀ i, adxValE p dx i = some (adxVal p dx i) := by
  intro i
  induction i with
  | zero =>
      unfold adxValE adxVal
      split <;> rfl
  | succ n ih =>
      unfold adxValE adxVal
      have hpne : ((p : ℚ)) ≠ 0 := Nat.cast_ne_zero.mpr (by omega)
      by_cases h1 : n + 1 < p - 1
      · simp [h1]
      · by_cases h2 : n + 1 = p - 1
        · simp [h1, h2]
        · simp [h1, h2, ih, divE, hpne]

theorem adxVal_congr (p : ℕ) (dx1 dx2 : ℕ → ℚ) :
    ∀ i, (∀ j, j ≤ i → dx1 j = dx2 j) → adxVal p dx1 i = adxVal p dx2 i := by
  intro i
  induction i with
  | zero =>
      intro hagree
      unfold adxVal
      rw [hagree 0 (le_refl 0)]
  | succ n ih =>
      intro hagree
      unfold adxVal
      rw [hagree (n + 1) (le_refl (n + 1)),
        ih (fun j hj => hagree j (le_trans hj (Nat.le_succ n)))]

theorem adxE_eq (high low close : List ℚ) (p : ℕ) (hp : 1 ≤ p) :
    adxE high low close p = some (adx high low close p) := by
  unfold adxE adx
  split
  · rfl
  · dsimp only
    rw [mapE_eq_map _ (diPairVal p (dmPlusList high low) (dmMinusList high low)
      (trList high low close)) _
      (fun i _ => diPairValE_eq p _ _ _ i hp)]
    simp only [Option.bind_eq_bind, Option.some_bind, List.map_map]
    rw [mapE_eq_map _ (dxFun
      ((List.range (dmPlusList high low).length).map
        (Prod.fst ∘ diPairVal p (dmPlusList high low) (dmMinusList high low)
          (trList high low close)))
      ((List.range (dmPlusList high low).length).map
        (Prod.snd ∘ diPairVal p (dmPlusList high low) (dmMinusList high low)
          (trList high low close)))) _ (fun i _ => dxFunE_eq _ _ i)]
    simp only [Option.bind_eq_bind, Option.some_bind]
    rw [mapE_eq_map _ (adxVal p (dxFun
      ((List.range (dmPlusList high low).length).map
        (Prod.fst ∘ diPairVal p (dmPlusList high low) (dmMinusList high low)
          (trList high low close)))
      ((List.range (dmPlusList high low).length).map
        (Prod.snd ∘ diPairVal p (dmPlusList high low) (dmMinusList high low)
          (trList high low close))))) _ ?vals]
    case vals =>
      intro i hi
      rw [adxValE_eq p _ hp i]
      congr 1
      apply adxVal_congr
      intro j hj
      have hjn : j < (dmPlusList high low).length :=
        lt_of_le_of_lt hj (List.mem_range.mp hi)
      exact getD_map_range _ _ _ hjn
    simp only [Option.bind_eq_bind, Option.some_bind]
    rfl

/-- C6 (amended to periods ≥ 1, see the counterexample): the checked
evaluation — in which every non-constant-denominator division returns `none`
on a zero denominator, exactly where Python would raise `ZeroDivisionError` —
always returns a value, equal to the total embedding: every zero denominator
among RSI average losses, CCI mean deviation, Stochastic %K highest-lowest
range, Williams %R range, and the ADX TR average and DI sum is routed through
a guarded branch yielding a fixed defined value. -/
theorem C6_division_guards (data high low close : List ℚ) (p kp dp : ℕ)
    (hp : 1 ≤ p) (hkp : 1 ≤ kp) (hdp : 1 ≤ dp) :
    rsiE data p = some (rsi data p) ∧
    stochasticE high low close kp dp = some (stochastic high low close kp dp) ∧
    williams_rE high low close p = some (williams_r high low close p) ∧
    cciE high low close p = some (cci high low close p) ∧
    adxE high low close p = some (adx high low close p) :=
  ⟨rsiE_eq data p hp, stochasticE_eq high low close kp dp hdp,
   williams_rE_eq high low close p, cciE_eq high low close p hp,
   adxE_eq high low close p hp⟩

/-- Witness for C6 (amended) at singleton inputs and periods 1. -/
theorem C6_division_guards_witness :
    (1:ℕ) ≤ 1 ∧ rsiE [1] 1 = some (rsi [1] 1) :=
  ⟨le_refl 1,
   (C6_division_guards [1] [1] [1] [1] 1 1 1 (le_refl 1) (le_refl 1)
      (le_refl 1)).1⟩

/-- Counterexample to C6 as stated: at period 0 the Python `rsi` divides by
zero (the unguarded `sum(...) / period` inside its `sma` call) and raises
`ZeroDivisionError` on the two-element input `[0.0, 0.0]`: the checked
evaluation hits a zero denominator (`none`) instead of any guarded branch. -/
theorem C6_counterexample : rsiE [0, 0] 0 = none := by
  norm_num [rsiE, rsiGains, rsiLosses, rsiDeltas, smaE, mapE, divE, window,
    List.range_succ]

theorem divE_eq_some {a b r : ℚ} (h : divE a b = some r) : b ≠ 0 ∧ a / b = r := by
  unfold divE at h
  split at h
  · cases h
  · rename_i hb
    exact ⟨hb, Option.some_inj.mp h⟩

theorem highRulesAtrE_some {price prev : ℚ} {atrL : List ℚ}
    {x : List (Sig × ℚ)} (h : highRulesAtrE price prev atrL = some x) :
    highRulesAtr price prev atrL = x := by
  unfold highRulesAtrE at h
  unfold highRulesAtr
  split at h
  case isTrue hg =>
    rw [if_pos hg]
    cases hd : divE (lastD atrL) price with
    | none =>
        rw [hd] at h
        simp at h
    | some r =>
        rw [hd] at h
        obtain ⟨hbne, hdiv⟩ := divE_eq_some hd
        simp only [Option.bind_eq_bind, Option.some_bind] at h
        rw [hdiv]
        by_cases hr : (0.01 : ℚ) < r
        · rw [if_pos hr]
          rw [if_pos hr] at h
          cases hpc : divE (price - prev) prev with
          | none =>
              rw [hpc] at h
              simp at h
          | some pc =>
              rw [hpc] at h
              obtain ⟨hpne, hpcv⟩ := divE_eq_some hpc
              simp only [Option.bind_eq_bind, Option.some_bind] at h
              rw [hpcv]
              exact Option.some_inj.mp h
        · rw [if_neg hr]
          rw [if_neg hr] at h
          exact Option.some_inj.mp h
  case isFalse hg =>
    rw [if_neg hg]
    exact Option.some_inj.mp h

theorem lowRulesAtrE_some {price : ℚ} {sma50 atrL : List ℚ}
    {x : List (Sig × ℚ)} (h : lowRulesAtrE price sma50 atrL = some x) :
    lowRulesAtr price sma50 atrL = x := by
  unfold lowRulesAtrE at h
  unfold lowRulesAtr
  split at h
  case isTrue hg =>
    rw [if_pos hg]
    cases hd : divE (lastD atrL) price with
    | none =>
        rw [hd] at h
        simp at h
    | some r =>
        rw [hd] at h
        obtain ⟨hbne, hdiv⟩ := divE_eq_some hd
        simp only [Option.bind_eq_bind, Option.some_bind] at h
        rw [hdiv]
        exact Option.some_inj.mp h
  case isFalse hg =>
    rw [if_neg hg]
    exact Option.some_inj.mp h

theorem lowRulesVolAtrE_some {price : ℚ} {sma20 vols atrL : List ℚ}
    {x : List (Sig × ℚ)} (h : lowRulesVolAtrE price sma20 vols atrL = some x) :
    lowRulesVolAtr price sma20 vols atrL = x := by
  unfold lowRulesVolAtrE at h
  unfold lowRulesVolAtr
  split at h
  case isTrue hg =>
    rw [if_pos hg]
    split at h
    case isTrue hg2 =>
      rw [if_pos hg2]
      cases hd : divE (lastD atrL) price with
      | none =>
          rw [hd] at h
          simp at h
      | some r =>
          rw [hd] at h
          obtain ⟨hbne, hdiv⟩ := divE_eq_some hd
          simp only [Option.bind_eq_bind, Option.some_bind] at h
          rw [hdiv]
          exact Option.some_inj.mp h
    case isFalse hg2 =>
      rw [if_neg hg2]
      exact Option.some_inj.mp h
  case isFalse hg =>
    rw [if_neg hg]
    exact Option.some_inj.mp h

theorem highRulesE_some {price prev : ℚ}
    {sma20 rsiL macdL macdS bbU bbL stochK stochD atrL willR cciL adxL : List ℚ}
    {l : List (Sig × ℚ)}
    (h : highRulesE price prev sma20 rsiL macdL macdS bbU bbL stochK stochD
      atrL willR cciL adxL = some l) :
    highRules price prev sma20 rsiL macdL macdS bbU bbL stochK stochD atrL
      willR cciL adxL = l := by
  unfold highRulesE at h
  cases h8 : highRulesAtrE price prev atrL with
  | none =>
      rw [h8] at h
      simp at h
  | some r8 =>
      rw [h8] at h
      simp only [Option.bind_eq_bind, Option.some_bind] at h
      unfold highRules
      rw [highRulesAtrE_some h8]
      exact Option.some_inj.mp h

theorem lowRulesE_some {price : ℚ}
    {sma20 sma50 rsiL macdL macdS bbU bbL vols atrL willR cciL adxL : List ℚ}
    {l : List (Sig × ℚ)}
    (h : lowRulesE price sma20 sma50 rsiL macdL macdS bbU bbL vols atrL willR
      cciL adxL = some l) :
    lowRules price sma20 sma50 rsiL macdL macdS bbU bbL vols atrL willR cciL
      adxL = l := by
  unfold lowRulesE at h
  cases h5 : lowRulesAtrE price sma50 atrL with
  | none =>
      rw [h5] at h
      simp at h
  | some r5 =>
      rw [h5] at h
      simp only [Option.bind_eq_bind, Option.some_bind] at h
      cases h8 : lowRulesVolAtrE price sma20 vols atrL with
      | none =>
          rw [h8] at h
          simp at h
      | some r8 =>
          rw [h8] at h
          simp only [Option.bind_eq_bind, Option.some_bind] at h
          unfold lowRules
          rw [lowRulesAtrE_some h5, lowRulesVolAtrE_some h8]
          exact Option.some_inj.mp h

theorem firedRulesE_some (kind : RiskKind) (stdFn : List ℚ → ℚ)
    (candles : List Candle) {l : List (Sig × ℚ)}
    (h : firedRulesE kind stdFn candles = some l) :
    firedRules kind stdFn candles = l := by
  cases kind with
  | high =>
      unfold firedRulesE at h
      unfold firedRules
      dsimp only at h ⊢
      exact highRulesE_some h
  | medium =>
      unfold firedRulesE at h
      unfold firedRules
      dsimp only at h ⊢
      exact Option.some_inj.mp h
  | low =>
      unfold firedRulesE at h
      unfold firedRules
      dsimp only at h ⊢
      exact lowRulesE_some h

theorem aggregate_spec (kind : RiskKind) (threshold : ℚ) (rs : List (Sig × ℚ)) :
    ((aggregate kind threshold rs).signal = Sig.BUY ↔
       sellSignals rs < buySignals rs ∧ threshold ≤ avgConfidence rs) ∧
    ((aggregate kind threshold rs).signal = Sig.SELL ↔
       buySignals rs < sellSignals rs ∧ threshold ≤ avgConfidence rs) ∧
    ((aggregate kind threshold rs).signal = Sig.HOLD ↔
       ¬(sellSignals rs < buySignals rs ∧ threshold ≤ avgConfidence rs) ∧
       ¬(buySignals rs < sellSignals rs ∧ threshold ≤ avgConfidence rs)) ∧
    (aggregate kind threshold rs).confidence = avgConfidence rs := by
  unfold aggregate
  split_ifs with h1 h2
  · refine ⟨by simp [h1], ?_, ?_, rfl⟩
    · constructor
      · intro hh
        exact absurd hh (by simp)
      · rintro ⟨hb, _⟩
        exact absurd hb (by omega)
    · constructor
      · intro hh
        exact absurd hh (by simp)
      · rintro ⟨hb, _⟩
        exact absurd h1 hb
  · refine ⟨?_, by simp [h2], ?_, rfl⟩
    · constructor
      · intro hh
        exact absurd hh (by simp)
      · intro hb
        exact absurd hb h1
    · constructor
      · intro hh
        exact absurd hh (by simp)
      · rintro ⟨_, hb⟩
        exact absurd h2 hb
  · refine ⟨?_, ?_, by simp [h1, h2], rfl⟩
    · constructor
      · intro hh
        exact absurd hh (by simp)
      · intro hb
        exact absurd hb h1
    · constructor
      · intro hh
        exact absurd hh (by simp)
      · intro hb
        exact absurd hb h2

/-- C3 (amended; see the counterexample): with ≥ 50 candles, on every
execution where the analysis completes without raising (`analyzeMarketE`
returns a result — the momentum sub-rules' float divisions
`atr[-1]/current_price` and `(current-prev)/prev` in the HIGH/LOW variants
have nonzero denominators when reached; the MEDIUM variant never raises),
the emitted signal is BUY iff `buy_count > sell_count` and
`avg_confidence ≥ confidence_threshold`, SELL iff the symmetric condition
holds, HOLD otherwise, where the counts and average are over the fired
sub-rules under float semantics (a zero-width Bollinger band makes
`bb_position` NaN, whose comparisons are all false); the returned confidence
always equals the average (0 when no sub-rule fired). -/
theorem C3_signal_aggregation (kind : RiskKind) (stdFn : List ℚ → ℚ)
    (threshold : ℚ) (candles : List Candle) (r : SignalResult)
    (h50 : 50 ≤ candles.length)
    (hr : analyzeMarketE kind stdFn threshold candles = some r) :
    r = analyzeMarket kind stdFn threshold candles ∧
    (r.signal = Sig.BUY ↔
       sellSignals (firedRules kind stdFn candles) <
         buySignals (firedRules kind stdFn candles) ∧
       threshold ≤ avgConfidence (firedRules kind stdFn candles)) ∧
    (r.signal = Sig.SELL ↔
       buySignals (firedRules kind stdFn candles) <
         sellSignals (firedRules kind stdFn candles) ∧
       threshold ≤ avgConfidence (firedRules kind stdFn candles)) ∧
    (r.signal = Sig.HOLD ↔
       ¬(sellSignals (firedRules kind stdFn candles) <
           buySignals (firedRules kind stdFn candles) ∧
         threshold ≤ avgConfidence (firedRules kind stdFn candles)) ∧
       ¬(buySignals (firedRules kind stdFn candles) <
           sellSignals (firedRules kind stdFn candles) ∧
         threshold ≤ avgConfidence (firedRules kind stdFn candles))) ∧
    r.confidence = avgConfidence (firedRules kind stdFn candles) := by
  have hn : ¬ candles.length < 50 := by omega
  unfold analyzeMarketE at hr
  rw [if_neg hn] at hr
  obtain ⟨rs0, hrs, hagg⟩ := Option.map_eq_some'.mp hr
  have hfr : firedRules kind stdFn candles = rs0 :=
    firedRulesE_some kind stdFn candles hrs
  have hre : r = aggregate kind threshold (firedRules kind stdFn candles) := by
    rw [hfr]
    exact hagg.symm
  have hA : analyzeMarket kind stdFn threshold candles =
      aggregate kind threshold (firedRules kind stdFn candles) := by
    unfold analyzeMarket
    rw [if_neg hn]
  have hs := aggregate_spec kind threshold (firedRules kind stdFn candles)
  subst hre
  exact ⟨hA.symm, hs.1, hs.2.1, hs.2.2.1, hs.2.2.2⟩

/-- Witness for C3 on a concrete constant 50-candle market (MEDIUM variant,
which contains no raising division, so the checked analysis returns a
result). -/
theorem C3_signal_aggregation_witness :
    50 ≤ (List.replicate 50 (⟨1, 1, 1, 1⟩ : Candle)).length ∧
    analyzeMarketE RiskKind.medium (fun _ => 0) (7/10)
        (List.replicate 50 (⟨1, 1, 1, 1⟩ : Candle)) =
      some (analyzeMarket RiskKind.medium (fun _ => 0) (7/10)
        (List.replicate 50 (⟨1, 1, 1, 1⟩ : Candle))) ∧
    (analyzeMarket RiskKind.medium (fun _ => 0) (7/10)
        (List.replicate 50 (⟨1, 1, 1, 1⟩ : Candle))).confidence =
      avgConfidence (firedRules RiskKind.medium (fun _ => 0)
        (List.replicate 50 (⟨1, 1, 1, 1⟩ : Candle))) := by
  have h50 : 50 ≤ (List.replicate 50 (⟨1, 1, 1, 1⟩ : Candle)).length := by simp
  have hE : analyzeMarketE RiskKind.medium (fun _ => 0) (7/10)
      (List.replicate 50 (⟨1, 1, 1, 1⟩ : Candle)) =
      some (analyzeMarket RiskKind.medium (fun _ => 0) (7/10)
        (List.replicate 50 (⟨1, 1, 1, 1⟩ : Candle))) := by
    unfold analyzeMarketE analyzeMarket
    rw [if_neg (by simp), if_neg (by simp)]
    rfl
  exact ⟨h50, hE, (C3_signal_aggregation RiskKind.medium (fun _ => 0) (7/10)
    (List.replicate 50 ⟨1, 1, 1, 1⟩) _ h50 hE).2.2.2.2⟩

/-- Counterexample to C3 as stated: on these 50 candles (high 1, low 0,
close 0) the HIGH variant's sub-rule 8 reaches `atr[-1]/current_price` with
`atr[-1] = 1 > 0` and `current_price = 0`; this is a pure-float division, so
`analyze_market` raises `ZeroDivisionError` and no signal is emitted at all,
contradicting the claimed biconditional for every candle list of
length ≥ 50. -/
theorem C3_counterexample :
    analyzeMarketE RiskKind.high (fun _ => 0) 0
      (List.replicate 50 (⟨1, 0, 0, 0⟩ : Candle)) = none := by
  have htr : trList (List.replicate 50 (1:ℚ)) (List.replicate 50 (0:ℚ))
      (List.replicate 50 (0:ℚ)) = List.replicate 49 1 := by
    unfold trList
    rw [List.eq_replicate_iff]
    constructor
    · simp
    · intro b hb
      rw [List.mem_map] at hb
      obtain ⟨i, hi, rfl⟩ := hb
      rw [List.mem_range, List.length_replicate] at hi
      rw [getD_replicate_of_lt (show i + 1 < 50 by omega),
        getD_replicate_of_lt (show i + 1 < 50 by omega),
        getD_replicate_of_lt (show i < 50 by omega)]
      norm_num
  have hsma48 : (sma (List.replicate 49 (1:ℚ)) 14).getD 48 0 = 1 := by
    unfold sma
    rw [if_neg (by simp)]
    rw [getD_map_range _ _ _ (by simp)]
    rw [if_neg (by norm_num)]
    unfold window
    norm_num [List.drop_replicate, List.take_replicate, List.sum_replicate]
  have hatr : lastD (atr (List.replicate 50 1) (List.replicate 50 0)
      (List.replicate 50 0) 14) = 1 := by
    unfold atr
    rw [if_neg (by simp)]
    dsimp only
    rw [htr]
    unfold lastD
    simp only [List.length_append, List.length_replicate, sma_length]
    norm_num
    rw [← List.getD_eq_getElem?_getD]
    exact hsma48
  have hprice : lastD (List.replicate 50 (0:ℚ)) = 0 := by
    unfold lastD
    rw [List.length_replicate]
    exact getD_replicate_of_lt (by norm_num)
  have hAtrE : ∀ pv : ℚ, highRulesAtrE (lastD (List.replicate 50 (0:ℚ))) pv
      (atr (List.replicate 50 1) (List.replicate 50 0)
        (List.replicate 50 0) 14) = none := by
    intro pv
    unfold highRulesAtrE
    rw [if_pos ⟨by rw [atr_length]; simp, by rw [hatr]; norm_num⟩]
    rw [hprice]
    unfold divE
    rw [if_pos rfl]
    rfl
  unfold analyzeMarketE
  rw [if_neg (by simp)]
  unfold firedRulesE
  dsimp only
  simp only [List.map_replicate]
  unfold highRulesE
  rw [hAtrE]
  rfl
